import Mathlib

/-!
Verification development for the decoding orchestration and
forward-backward hypothesis fusion of an attention/CTC hybrid
sequence-to-sequence model (`neural_sp/models/seq2seq/seq2seq.py`).

The Python code is shallowly embedded:
* token ids, arg-max timesteps and batch indices are `Nat`/`Int`;
* log-probability scores and configuration weights are exact numbers
  (`Int` for score trajectories, `Rat` for configuration weights) --
  the algorithms only add, subtract, take `max` and compare them;
* Python list indexing (including negative-index wraparound) is
  `pyGet?`; a failed access is a raised `IndexError`, so fallible code
  lives in `Except PyErr`;
* `sorted(xs, key=..., reverse=True)` is the stable descending
  insertion sort `pySortDesc` (Python's sort is stable; a stable sort
  by a total key is uniquely determined, so any stable descending sort
  is a faithful model);
* external collaborators (encoder, decoder capability objects) are
  oracle function records; logging is dropped (no semantic effect).
-/

namespace NeuralSp

/-- Error taxonomy. The embedded code only ever raises the Python
built-ins (`IndexError` from list indexing, `ValueError` from
`argmax` on an empty array, `AssertionError` from a failed `assert`).
The constructors `configurationError` and `fusionError` represent the
error classes named by the specification; the source never defines or
raises them, they exist so that statements about them can be made. -/
inductive PyErr where
  | indexError : PyErr
  | valueError : PyErr
  | assertionError : PyErr
  | configurationError : String → PyErr
  | fusionError : String → PyErr
deriving DecidableEq, Inhabited

deriving instance DecidableEq for Except

/-- Python list access `l[i]` with negative-index wraparound:
a negative index has the length added once; if the result is still out
of range the access fails (Python raises `IndexError`). -/
def pyGet? {α : Type} (l : List α) (i : Int) : Option α :=
  if i < 0 then
    let j : Int := i + l.length
    if j < 0 then none else l[j.toNat]?
  else l[i.toNat]?

/-- Python list access in the `Except` monad: a failed access is a
raised `IndexError`. -/
def pyGetE {α : Type} (l : List α) (i : Int) : Except PyErr α :=
  match pyGet? l i with
  | some v => .ok v
  | none => .error .indexError

/-- Totalised Python access, used by the pure specification-side
definitions (the default is never reached on well-formed data). -/
def pyGetD {α : Type} (l : List α) (i : Int) (d : α) : α :=
  (pyGet? l i).getD d

/-- Index of the first maximal element (numpy `argmax` on a
one-dimensional array), `none` on an empty array. -/
def argmaxGo (best : Nat × Int) (i : Nat) : List Int → Nat × Int
  | [] => best
  | x :: xs => argmaxGo (if best.2 < x then (i, x) else best) (i + 1) xs

/-- numpy `argmax(-1).item()` on an attention row; empty rows raise
`ValueError` in numpy. -/
def argmax? (l : List Int) : Option Nat :=
  match l with
  | [] => none
  | x :: xs => some (argmaxGo (0, x) 1 xs).1

/-- Monadic `argmax` (raised `ValueError` on an empty row). -/
def argmaxE (l : List Int) : Except PyErr Nat :=
  match argmax? l with
  | some v => .ok v
  | none => .error .valueError

/-- Totalised `argmax`, used by specification-side definitions. -/
def argmaxD (l : List Int) : Nat :=
  (argmax? l).getD 0

/-- Reserved end-of-sequence token id (`eos = 2` in the source;
blank=0, unk=1, sos=eos=2, pad=3 are fixed at construction). -/
def eosId : Int := 2

/-- Merge candidate: the dictionaries `{'hyp': ..., 'score': ...}`
appended to `merged` by `fwd_bwd_attention`. -/
structure Cand where
  hyp : List Int
  score : Int
deriving DecidableEq, Inhabited

/-- Stable insertion step for descending sort: `x` is placed before
the first element whose key is `≤ key x` (so among equal keys the
earlier-inserted element stays first, as in Python's stable sort). -/
def pyInsertDesc {α β : Type} [LinearOrder β] (key : α → β) (x : α) : List α → List α
  | [] => [x]
  | y :: ys => if key y ≤ key x then x :: y :: ys else y :: pyInsertDesc key x ys

/-- Stable descending sort by key: the model of Python
`sorted(l, key=key, reverse=True)`. -/
def pySortDesc {α β : Type} [LinearOrder β] (key : α → β) : List α → List α
  | [] => []
  | x :: xs => pyInsertDesc key x (pySortDesc key xs)

/-- Sequential monadic flat-map: the model of a Python `for` loop that
appends list contributions to an accumulator, propagating the first
raised exception. -/
def flatMapME {α β : Type} (f : α → Except PyErr (List β)) : List α → Except PyErr (List β)
  | [] => .ok []
  | x :: xs => do
    let y ← f x
    let ys ← flatMapME f xs
    pure (y ++ ys)

/-- Sequential monadic map (Python list comprehension that can raise). -/
def mapME {α β : Type} (f : α → Except PyErr β) : List α → Except PyErr (List β)
  | [] => .ok []
  | x :: xs => do
    let y ← f x
    let ys ← mapME f xs
    pure (y :: ys)

/-- Pure flat-map used by the specification-side comprehensions. -/
def flatMapP {α β : Type} (f : α → List β) : List α → List β
  | [] => []
  | x :: xs => f x ++ flatMapP f xs

/-- Step 1 of `fwd_bwd_attention` for one forward hypothesis
(source lines 683-693): if it has more than one token, trim a trailing
`eos` and use the second-to-last cumulative score, otherwise keep the
hypothesis whole with its last cumulative score; a length-`≤ 1`
hypothesis is only logged and contributes no candidate. -/
def seedFwd (hyp : List Int) (scores : List Int) : Except PyErr (List Cand) :=
  if 1 < hyp.length then do
    let last ← pyGetE hyp (-1)
    if last = eosId then do
      let s ← pyGetE scores (-2)
      pure [⟨hyp.dropLast, s⟩]
    else do
      let s ← pyGetE scores (-1)
      pure [⟨hyp, s⟩]
  else pure []

/-- Step 1 of `fwd_bwd_attention` for one backward hypothesis
(source lines 696-706): symmetric to `seedFwd`, trimming a leading
`eos` and using the second cumulative score. -/
def seedBwd (hyp : List Int) (scores : List Int) : Except PyErr (List Cand) :=
  if 1 < hyp.length then do
    let first ← pyGetE hyp 0
    if first = eosId then do
      let s ← pyGetE scores 1
      pure [⟨hyp.drop 1, s⟩]
    else do
      let s ← pyGetE scores 0
      pure [⟨hyp, s⟩]
  else pure []

/-- Pure form of `seedFwd` on data whose score trajectory covers the
hypothesis: trim a trailing end marker and keep the second-to-last
cumulative score, else keep the whole hypothesis with its last
cumulative score; length-one hypotheses contribute nothing. -/
def seedFwdP (hyp : List Int) (scores : List Int) : List Cand :=
  if 1 < hyp.length then
    if hyp.getD (hyp.length - 1) 0 = eosId then
      [⟨hyp.dropLast, scores.getD (scores.length - 2) 0⟩]
    else
      [⟨hyp, scores.getD (scores.length - 1) 0⟩]
  else []

/-- Pure form of `seedBwd`: trim a leading end marker and keep the
second cumulative score, else keep the whole hypothesis with its first
cumulative score. -/
def seedBwdP (hyp : List Int) (scores : List Int) : List Cand :=
  if 1 < hyp.length then
    if hyp.getD 0 0 = eosId then
      [⟨hyp.drop 1, scores.getD 1 0⟩]
    else
      [⟨hyp, scores.getD 0 0⟩]
  else []

/-- Pure form of the whole seeding step for one batch item (the
candidate list before the cross-splice search, in source order:
forward then backward candidate per rank). -/
def seedSpec (hypsF : List (List Int)) (scoresF : List (List Int))
    (hypsB : List (List Int)) (scoresB : List (List Int)) (nbest : Nat) : List Cand :=
  flatMapP (fun (n : Nat) =>
      seedFwdP (hypsF.getD n []) (scoresF.getD n []) ++
        seedBwdP (hypsB.getD n []) (scoresB.getD n []))
    (List.range nbest)

/-- One iteration of the innermost cross-splice loop body
(source lines 712-724) for a fixed batch item: ranks `n_f`, `n_b` and
steps `i_f`, `i_b`; all list accesses occur in source order with
Python indexing semantics. -/
def contrib (hypsF : List (List Int)) (awsF : List (List (List Int)))
    (scoresF : List (List Int)) (hypsB : List (List Int))
    (awsB : List (List (List Int))) (scoresB : List (List Int))
    (n_f n_b i_f i_b : Nat) : Except PyErr (List Cand) := do
  let aB ← pyGetE awsB (n_b : Int)
  let rowPrev ← pyGetE aB ((i_b : Int) + 1)
  let t_prev ← argmaxE rowPrev
  let aF ← pyGetE awsF (n_f : Int)
  let rowCurr ← pyGetE aF (i_f : Int)
  let t_curr ← argmaxE rowCurr
  let rowNext ← pyGetE aB ((i_b : Int) - 1)
  let t_next ← argmaxE rowNext
  if t_prev ≤ t_curr ∧ t_curr ≤ t_next then do
    let hF ← pyGetE hypsF (n_f : Int)
    let tokF ← pyGetE hF (i_f : Int)
    let hB ← pyGetE hypsB (n_b : Int)
    let tokB ← pyGetE hB (i_b : Int)
    if tokF = tokB then do
      let newHyp := hF.take (i_f + 1) ++ hB.drop (i_b + 1)
      let sF ← pyGetE scoresF (n_f : Int)
      let scoreF_if ← pyGetE sF (i_f : Int)
      let scoreF_prev ← pyGetE sF ((i_f : Int) - 1)
      let score_curr_fwd := scoreF_if - scoreF_prev
      let sB ← pyGetE scoresB (n_b : Int)
      let scoreB_ib ← pyGetE sB (i_b : Int)
      let scoreB_next ← pyGetE sB ((i_b : Int) + 1)
      let score_curr_bwd := scoreB_ib - scoreB_next
      let score_curr := max score_curr_fwd score_curr_bwd
      pure [⟨newHyp, scoreF_prev + scoreB_next + score_curr⟩]
    else pure []
  else pure []

/-- The quadruple-nested cross-splice search of `fwd_bwd_attention`
(source lines 708-724) for one batch item. -/
def spliceSearch (hypsF : List (List Int)) (awsF : List (List (List Int)))
    (scoresF : List (List Int)) (hypsB : List (List Int))
    (awsB : List (List (List Int))) (scoresB : List (List Int))
    (nbest : Nat) : Except PyErr (List Cand) :=
  flatMapME (fun (n_f : Nat) => do
      let aF ← pyGetE awsF (n_f : Int)
      flatMapME (fun (n_b : Nat) => do
          let aB ← pyGetE awsB (n_b : Int)
          flatMapME (fun (i_f : Nat) =>
              flatMapME (fun (i_b : Nat) =>
                  contrib hypsF awsF scoresF hypsB awsB scoresB n_f n_b i_f i_b)
                (List.range (aB.length - 1)))
            (List.range (aF.length - 1)))
        (List.range nbest))
    (List.range nbest)

/-- Step 1 + step 2 of `fwd_bwd_attention` (source lines 680-706) for
one batch item: the seeded candidate list, with the source's
interleaved order (forward then backward candidate per rank). -/
def seedCands (hypsF : List (List Int)) (scoresF : List (List Int))
    (hypsB : List (List Int)) (scoresB : List (List Int))
    (nbest : Nat) : Except PyErr (List Cand) :=
  flatMapME (fun (n : Nat) => do
      let hF ← pyGetE hypsF (n : Int)
      let sF ← pyGetE scoresF (n : Int)
      let cF ← seedFwd hF sF
      let hB ← pyGetE hypsB (n : Int)
      let sB ← pyGetE scoresB (n : Int)
      let cB ← seedBwd hB sB
      pure (cF ++ cB))
    (List.range nbest)

/-- The body of the per-batch-item loop of `fwd_bwd_attention`
(source lines 680-738): seed, cross-splice, stable descending sort by
score, then take `merged[0]` (a raised `IndexError` when the candidate
list is empty). -/
def fuseItem (hypsF : List (List Int)) (awsF : List (List (List Int)))
    (scoresF : List (List Int)) (hypsB : List (List Int))
    (awsB : List (List (List Int))) (scoresB : List (List Int))
    (nbest : Nat) : Except PyErr (List Int) := do
  let seeds ← seedCands hypsF scoresF hypsB scoresB nbest
  let splices ← spliceSearch hypsF awsF scoresF hypsB awsB scoresB nbest
  let merged := seeds ++ splices
  match pySortDesc Cand.score merged with
  | [] => .error .indexError
  | c :: _ => .ok c.hyp

/-- The fusion engine `fwd_bwd_attention` (source lines 657-740):
`nbest` is the length of the first batch item's forward n-best list,
and one fused hypothesis is produced per batch item. -/
def fwdBwdAttention (hypsF : List (List (List Int)))
    (awsF : List (List (List (List Int)))) (scoresF : List (List (List Int)))
    (hypsB : List (List (List Int)))
    (awsB : List (List (List (List Int)))) (scoresB : List (List (List Int))) :
    Except PyErr (List (List Int)) := do
  let h0 ← pyGetE hypsF 0
  let nbest := h0.length
  mapME (fun (b : Nat) => do
      let hF ← pyGetE hypsF (b : Int)
      let aF ← pyGetE awsF (b : Int)
      let sF ← pyGetE scoresF (b : Int)
      let hB ← pyGetE hypsB (b : Int)
      let aB ← pyGetE awsB (b : Int)
      let sB ← pyGetE scoresB (b : Int)
      fuseItem hF aF sF hB aB sB nbest)
    (List.range hypsF.length)

/-- Specification-side selector: the arg-max attended input timestep
of the backward alignment at step `i_b - 1` (with Python wraparound),
the value called `t_next` by the search. -/
def tNextSel (aB : List (List Int)) (i_b : Nat) : Nat :=
  argmaxD (pyGetD aB ((i_b : Int) - 1) [])

/-- Specification-side selector: the prefix cumulative-score term
`forward_score[i_f - 1]` of a spliced candidate (with Python
wraparound). -/
def fwdPrevScoreTerm (sF : List Int) (i_f : Nat) : Int :=
  pyGetD sF ((i_f : Int) - 1) 0

/-- The spliced candidate generated at one quadruple
`(n_f, n_b, i_f, i_b)`, transcribed from the specification's wording of
the cross-splice rule: the candidate exists exactly when
`t_prev <= t_curr <= t_next` and the forward token at `i_f` equals the
backward token at `i_b`; its hypothesis is forward tokens `[0..i_f]`
followed by backward tokens `[i_b+1..end]`, and its score is
`forward_score[i_f-1] + backward_score[i_b+1]` plus the better of the
two directions' marginal log-probability for the shared token. -/
def spliceCandAt (hypsF : List (List Int)) (awsF : List (List (List Int)))
    (scoresF : List (List Int)) (hypsB : List (List Int))
    (awsB : List (List (List Int))) (scoresB : List (List Int))
    (n_f n_b i_f i_b : Nat) : List Cand :=
  let aF := pyGetD awsF (n_f : Int) []
  let aB := pyGetD awsB (n_b : Int) []
  let hF := pyGetD hypsF (n_f : Int) []
  let hB := pyGetD hypsB (n_b : Int) []
  let sF := pyGetD scoresF (n_f : Int) []
  let sB := pyGetD scoresB (n_b : Int) []
  let t_prev := argmaxD (pyGetD aB ((i_b : Int) + 1) [])
  let t_curr := argmaxD (pyGetD aF (i_f : Int) [])
  let t_next := tNextSel aB i_b
  if t_prev ≤ t_curr ∧ t_curr ≤ t_next ∧ pyGetD hF (i_f : Int) 0 = pyGetD hB (i_b : Int) 0 then
    [⟨hF.take (i_f + 1) ++ hB.drop (i_b + 1),
      fwdPrevScoreTerm sF i_f + pyGetD sB ((i_b : Int) + 1) 0 +
        max (pyGetD sF (i_f : Int) 0 - fwdPrevScoreTerm sF i_f)
          (pyGetD sB (i_b : Int) 0 - pyGetD sB ((i_b : Int) + 1) 0)⟩]
  else []

/-- Specification-side pure comprehension of the whole cross-splice
search: every rank pair, every forward step but the last, every
backward step but the last. -/
def spliceSpec (hypsF : List (List Int)) (awsF : List (List (List Int)))
    (scoresF : List (List Int)) (hypsB : List (List Int))
    (awsB : List (List (List Int))) (scoresB : List (List Int))
    (nbest : Nat) : List Cand :=
  flatMapP (fun (n_f : Nat) =>
      flatMapP (fun (n_b : Nat) =>
          flatMapP (fun (i_f : Nat) =>
              flatMapP (fun (i_b : Nat) =>
                  spliceCandAt hypsF awsF scoresF hypsB awsB scoresB n_f n_b i_f i_b)
                (List.range ((pyGetD awsB (n_b : Int) []).length - 1)))
            (List.range ((pyGetD awsF (n_f : Int) []).length - 1)))
        (List.range nbest))
    (List.range nbest)

/-- Well-formedness of one ranked hypothesis entry, as guaranteed by
the decoder boundary: the score trajectory and the alignment matrix
have one entry per emitted token, and every alignment row is a
distribution over at least one input timestep. -/
def WFEntry (hyp : List Int) (aws : List (List Int)) (scores : List Int) : Prop :=
  hyp.length = aws.length ∧ scores.length = aws.length ∧ ∀ row ∈ aws, row ≠ []

/-- Well-formedness of one direction's n-best data for one batch item:
at least `nbest` ranked entries, each well-formed. -/
def WFDir (hyps : List (List Int)) (aws : List (List (List Int)))
    (scores : List (List Int)) (nbest : Nat) : Prop :=
  nbest ≤ hyps.length ∧ nbest ≤ aws.length ∧ nbest ≤ scores.length ∧
    ∀ n < nbest, WFEntry (hyps.getD n []) (aws.getD n []) (scores.getD n [])

/-- Well-formedness of a whole fusion call: the batch is non-empty,
all six batch-level lists cover every item, and each item is
well-formed in both directions for the `nbest` taken from the first
forward item. -/
def WFBatch (hypsF : List (List (List Int)))
    (awsF : List (List (List (List Int)))) (scoresF : List (List (List Int)))
    (hypsB : List (List (List Int)))
    (awsB : List (List (List (List Int)))) (scoresB : List (List (List Int))) : Prop :=
  0 < hypsF.length ∧
    hypsF.length ≤ awsF.length ∧ hypsF.length ≤ scoresF.length ∧
    hypsF.length ≤ hypsB.length ∧ hypsF.length ≤ awsB.length ∧
    hypsF.length ≤ scoresB.length ∧
    ∀ b < hypsF.length,
      WFDir (hypsF.getD b []) (awsF.getD b []) (scoresF.getD b [])
          (hypsF.getD 0 []).length ∧
        WFDir (hypsB.getD b []) (awsB.getD b []) (scoresB.getD b [])
          (hypsF.getD 0 []).length

instance (hyp : List Int) (aws : List (List Int)) (scores : List Int) :
    Decidable (WFEntry hyp aws scores) := by
  unfold WFEntry; infer_instance

instance (hyps : List (List Int)) (aws : List (List (List Int)))
    (scores : List (List Int)) (nbest : Nat) :
    Decidable (WFDir hyps aws scores nbest) := by
  unfold WFDir WFEntry; infer_instance

instance (hypsF : List (List (List Int)))
    (awsF : List (List (List (List Int)))) (scoresF : List (List (List Int)))
    (hypsB : List (List (List Int)))
    (awsB : List (List (List (List Int)))) (scoresB : List (List (List Int))) :
    Decidable (WFBatch hypsF awsF scoresF hypsB awsB scoresB) := by
  unfold WFBatch WFDir WFEntry; infer_instance

/-- Decoding direction of a decoder instance. -/
inductive Dir where
  | fwd : Dir
  | bwd : Dir
deriving DecidableEq, Inhabited

/-- Task identifier (`ys`, `ys_sub1`, `ys_sub2`). -/
inductive Task where
  | main : Task
  | sub1 : Task
  | sub2 : Task
deriving DecidableEq, Inhabited

/-- Key of a decoder / language-model attribute (the string
`'fwd' / 'bwd'` plus optional `'_sub1' / '_sub2'` suffix built by
`decode`). -/
structure DirTaskKey where
  dir : Dir
  task : Task
deriving DecidableEq, Inhabited

/-- The configuration state of a `Seq2seq` model consumed by the
decode dispatcher: CTC weights per task, forward/backward weights, and
the registered language models (`hasattr(self, 'rnnlm_' + dir)`
modelled as an optional attribute per key). -/
structure Model where
  ctc_weight : Rat
  ctc_weight_sub1 : Rat
  ctc_weight_sub2 : Rat
  fwd_weight : Rat
  bwd_weight : Rat
  rnnlm : DirTaskKey → Option Nat

/-- Direction selection of `decode` (source lines 595-599):
forward when `fwd_weight >= bwd_weight`, else backward, with the task
suffix appended. -/
def dirTask (m : Model) (task : Task) : DirTaskKey :=
  ⟨if m.bwd_weight ≤ m.fwd_weight then .fwd else .bwd, task⟩

/-- Decode parameters consumed by the dispatcher (the fields of
`decode_params` it reads). The length-ratio bound is only forwarded
to the greedy decoder. -/
structure DecodeParams where
  beam_width : Nat
  lenRatioMax : Rat
  rnnlm_weight : Rat
  fwd_bwd_attention : Bool

/-- Result triple of a `beam_search` capability call: n-best
hypotheses, alignment matrices and score trajectories, each per batch
item and rank. -/
structure NBestOut where
  hyps : List (List (List Int))
  aws : List (List (List (List Int)))
  scores : List (List (List Int))

/-- The decoder capability objects of the Decoder Registry, abstracted
as oracles. The encoded representation is abstracted as the sorted
item list itself (the external encoder is out of scope); the
identifier-to-token converter and reference strings are dropped
(logging only). -/
structure DecOps where
  decode_ctc : DirTaskKey → List (List Int) → Nat → Option Nat → List (List Int)
  greedy : DirTaskKey → List (List Int) → Rat → Bool → List (List Int) × List (List (List Int))
  beam_search : DirTaskKey → List (List Int) → DecodeParams → Option Nat → Nat → Bool → NBestOut

/-- The value returned by `decode`: Python returns a 3-tuple
`(best_hyps, aws, perm_idx)` or a 4-tuple
`(nbest_hyps, aws, scores, perm_idx)` depending on the path taken. -/
inductive DecodeRet where
  | three (hyps : List (List Int)) (aws : Option (List (List (List Int))))
      (perm : List Nat) : DecodeRet
  | four (nbestHyps : List (List (List Int))) (aws : List (List (List (List Int))))
      (scores : List (List (List Int))) (perm : List Nat) : DecodeRet
deriving DecidableEq

/-- The batch permutation computed by `encode` (source lines 502-503):
item indices sorted by descending raw length, stable on ties
(Python's `sorted` with `reverse=True`). -/
def encodePerm (xs : List (List Int)) : List Nat :=
  pySortDesc (fun (i : Nat) => (xs.getD i []).length) (List.range xs.length)

/-- Reordering `[xs[i] for i in perm]` (source line 504). -/
def applyPerm (p : List Nat) (xs : List (List Int)) : List (List Int) :=
  p.map (fun i => xs.getD i [])

/-- The inverse of a permutation index: position `i` holds the place
where original item `i` ended up. -/
def invPerm (p : List Nat) : List Nat :=
  (List.range p.length).map (fun i => p.indexOf i)

/-- The `Set RNNLM` block of `decode` (source lines 602-607 and
636-641): with a positive language-model weight the attribute
`rnnlm_<dir>` must exist (a bare `assert`, so a missing model raises
`AssertionError`), and that attribute is the model used; otherwise no
language model is passed. -/
def setRnnlm (m : Model) (p : DecodeParams) (d : DirTaskKey) : Except PyErr (Option Nat) :=
  if 0 < p.rnnlm_weight then
    match m.rnnlm d with
    | some lm => .ok (some lm)
    | none => .error .assertionError
  else .ok none

/-- The decode dispatcher `Seq2seq.decode` (source lines 592-654):
encode (sort + permutation index), then one of the four strategies:
CTC-only, greedy, forward-backward fusion, or single-direction beam
search with the `nbest`-dependent return arity. -/
def decode (m : Model) (ops : DecOps) (xs : List (List Int)) (p : DecodeParams)
    (nbest : Nat) (exclude_eos : Bool) (ctc : Bool) (task : Task) :
    Except PyErr DecodeRet :=
  let perm_idx := encodePerm xs
  let enc := applyPerm perm_idx xs
  let d := dirTask m task
  if m.ctc_weight = 1 ∨ (0 < m.ctc_weight ∧ ctc = true) then do
    let rnnlm ← setRnnlm m p d
    .ok (.three (ops.decode_ctc d enc p.beam_width rnnlm) none perm_idx)
  else if p.beam_width = 1 ∧ p.fwd_bwd_attention = false then
    let g := ops.greedy d enc p.lenRatioMax exclude_eos
    .ok (.three g.1 (some g.2) perm_idx)
  else if p.fwd_bwd_attention = true then do
    let outF := ops.beam_search ⟨.fwd, .main⟩ enc p none p.beam_width false
    let outB := ops.beam_search ⟨.bwd, .main⟩ enc p none p.beam_width false
    let best ← fwdBwdAttention outF.hyps outF.aws outF.scores outB.hyps outB.aws outB.scores
    .ok (.three best none perm_idx)
  else do
    let rnnlm ← setRnnlm m p d
    let out := ops.beam_search d enc p rnnlm nbest exclude_eos
    if nbest = 1 then do
      let best ← mapME (fun (h : List (List Int)) => pyGetE h 0) out.hyps
      let aws1 ← mapME (fun (a : List (List (List Int))) => pyGetE a 0) out.aws
      .ok (.three best (some aws1) perm_idx)
    else
      .ok (.four out.hyps out.aws out.scores perm_idx)

/-- Extractor: the hypothesis component of a decode result (empty on
error), used to state counterexamples without binders. -/
def retHyps : Except PyErr DecodeRet → List (List Int)
  | .ok (.three hyps _ _) => hyps
  | .ok (.four _ _ _ _) => []
  | .error _ => []

/-- Extractor: whether the alignment component of a 3-tuple decode
result is `None`. -/
def retAwsIsNone : Except PyErr DecodeRet → Bool
  | .ok (.three _ none _) => true
  | _ => false

/-- Whether a fallible call ended in a raised `ConfigurationError`. -/
def raisedConfigurationError {α : Type} : Except PyErr α → Bool
  | .error (.configurationError _) => true
  | _ => false

/-- Whether a fallible call ended in a raised `FusionError`. -/
def raisedFusionError {α : Type} : Except PyErr α → Bool
  | .error (.fusionError _) => true
  | _ => false

/-- The in-range position actually read by a Python access at index
`i - 1` into a list of length `len` (wrapping to the last element when
`i = 0`). -/
def predWrap (len i : Nat) : Nat :=
  if i = 0 then len - 1 else i - 1

/-! Helper lemmas about the Python-indexing primitives. -/

theorem pyGet?_ofNat {α : Type} (l : List α) (n : Nat) : pyGet? l (n : Int) = l[n]? := by
  unfold pyGet?
  have h1 : ¬ ((n : Int) < 0) := by omega
  simp [h1]

theorem pyGet?_nat_some {α : Type} (l : List α) (n : Nat) (d : α) (h : n < l.length) :
    pyGet? l (n : Int) = some (l.getD n d) := by
  rw [pyGet?_ofNat, List.getElem?_eq_getElem h, List.getD_eq_getElem l d h]

theorem pyGetE_nat_ok {α : Type} (l : List α) (n : Nat) (d : α) (h : n < l.length) :
    pyGetE l (n : Int) = .ok (l.getD n d) := by
  unfold pyGetE
  rw [pyGet?_nat_some l n d h]

theorem pyGetD_nat {α : Type} (l : List α) (n : Nat) (d d' : α) (h : n < l.length) :
    pyGetD l (n : Int) d = l.getD n d' := by
  unfold pyGetD
  rw [pyGet?_nat_some l n d' h]
  rfl

theorem pyGet?_neg {α : Type} (l : List α) (k : Nat) (d : α) (hk : 0 < k)
    (h : k ≤ l.length) : pyGet? l (-(k : Int)) = some (l.getD (l.length - k) d) := by
  unfold pyGet?
  have h1 : (-(k : Int)) < 0 := by omega
  have h2 : ¬ ((-(k : Int)) + l.length < 0) := by omega
  have h3 : ((-(k : Int)) + l.length).toNat = l.length - k := by omega
  have h4 : l.length - k < l.length := by omega
  simp only [h1, if_true, h2, if_false, h3]
  rw [List.getElem?_eq_getElem h4, List.getD_eq_getElem l d h4]

theorem pyGetE_neg_ok {α : Type} (l : List α) (k : Nat) (d : α) (hk : 0 < k)
    (h : k ≤ l.length) : pyGetE l (-(k : Int)) = .ok (l.getD (l.length - k) d) := by
  unfold pyGetE
  rw [pyGet?_neg l k d hk h]

theorem pyGetD_neg {α : Type} (l : List α) (k : Nat) (d d' : α) (hk : 0 < k)
    (h : k ≤ l.length) : pyGetD l (-(k : Int)) d = l.getD (l.length - k) d' := by
  unfold pyGetD
  rw [pyGet?_neg l k d' hk h]
  rfl

theorem pyGetE_cast_succ {α : Type} (l : List α) (i : Nat) (d : α) (h : i + 1 < l.length) :
    pyGetE l ((i : Int) + 1) = .ok (l.getD (i + 1) d) := by
  have hc : (i : Int) + 1 = ((i + 1 : Nat) : Int) := by push_cast; ring
  rw [hc, pyGetE_nat_ok l (i + 1) d h]

theorem pyGetD_cast_succ {α : Type} (l : List α) (i : Nat) (d d' : α) (h : i + 1 < l.length) :
    pyGetD l ((i : Int) + 1) d = l.getD (i + 1) d' := by
  have hc : (i : Int) + 1 = ((i + 1 : Nat) : Int) := by push_cast; ring
  rw [hc, pyGetD_nat l (i + 1) d d' h]

theorem pyGetE_cast_pred {α : Type} (l : List α) (i : Nat) (d : α) (h0 : 0 < l.length)
    (hi : i ≤ l.length) : pyGetE l ((i : Int) - 1) = .ok (l.getD (predWrap l.length i) d) := by
  match i with
  | 0 =>
    have hc : ((0 : Nat) : Int) - 1 = -((1 : Nat) : Int) := by decide
    rw [hc, pyGetE_neg_ok l 1 d (by omega) (by omega)]
    simp [predWrap]
  | j + 1 =>
    have hc : ((j + 1 : Nat) : Int) - 1 = ((j : Nat) : Int) := by push_cast; ring
    rw [hc, pyGetE_nat_ok l j d (by omega)]
    have hp : predWrap l.length (j + 1) = j := by simp [predWrap]
    rw [hp]

theorem pyGetD_cast_pred {α : Type} (l : List α) (i : Nat) (d d' : α) (h0 : 0 < l.length)
    (hi : i ≤ l.length) : pyGetD l ((i : Int) - 1) d = l.getD (predWrap l.length i) d' := by
  match i with
  | 0 =>
    have hc : ((0 : Nat) : Int) - 1 = -((1 : Nat) : Int) := by decide
    rw [hc, pyGetD_neg l 1 d d' (by omega) (by omega)]
    simp [predWrap]
  | j + 1 =>
    have hc : ((j + 1 : Nat) : Int) - 1 = ((j : Nat) : Int) := by push_cast; ring
    rw [hc, pyGetD_nat l j d d' (by omega)]
    have hp : predWrap l.length (j + 1) = j := by simp [predWrap]
    rw [hp]

theorem okBind {α β : Type} (a : α) (f : α → Except PyErr β) :
    (Except.ok a : Except PyErr α) >>= f = f a := rfl

theorem errBind {α β : Type} (e : PyErr) (f : α → Except PyErr β) :
    (Except.error e : Except PyErr α) >>= f = .error e := rfl

theorem argmaxE_ok (l : List Int) (h : l ≠ []) : argmaxE l = .ok (argmaxD l) := by
  unfold argmaxE argmaxD argmax?
  match l, h with
  | x :: xs, _ => rfl

/-! Helper lemmas about the loop combinators. -/

theorem flatMapME_ok_of {α β : Type} (f : α → Except PyErr (List β)) (g : α → List β)
    (l : List α) (h : ∀ x ∈ l, f x = .ok (g x)) :
    flatMapME f l = .ok (flatMapP g l) := by
  induction l with
  | nil => rfl
  | cons x xs ih =>
    have hx := h x (by simp)
    have hxs := ih (fun y hy => h y (by simp [hy]))
    simp only [flatMapME, flatMapP, hx, hxs]
    rfl

theorem mapME_error_of {α β : Type} (f : α → Except PyErr β) (l : List α) (e : PyErr)
    (hall : ∀ x ∈ l, (∃ y, f x = .ok y) ∨ f x = .error e)
    (hex : ∃ x ∈ l, f x = .error e) : mapME f l = .error e := by
  induction l with
  | nil => simp at hex
  | cons x xs ih =>
    rcases hall x (by simp) with ⟨y, hy⟩ | hy
    · have hxs : ∃ z ∈ xs, f z = .error e := by
        rcases hex with ⟨z, hz, hze⟩
        rcases List.mem_cons.mp hz with rfl | hz'
        · rw [hy] at hze; cases hze
        · exact ⟨z, hz', hze⟩
      have := ih (fun z hz => hall z (by simp [hz])) hxs
      simp only [mapME, hy, this]
      rfl
    · simp only [mapME, hy]
      rfl

/-! Helper lemmas about the stable descending sort. -/

theorem pyInsertDesc_perm {α β : Type} [LinearOrder β] (key : α → β) (x : α)
    (l : List α) : (pyInsertDesc key x l).Perm (x :: l) := by
  induction l with
  | nil => rfl
  | cons y ys ih =>
    unfold pyInsertDesc
    by_cases h : key y ≤ key x
    · simp [h]
    · simp only [h, if_false]
      exact (ih.cons y).trans (List.Perm.swap x y ys)

theorem pySortDesc_perm {α β : Type} [LinearOrder β] (key : α → β) (l : List α) :
    (pySortDesc key l).Perm l := by
  induction l with
  | nil => rfl
  | cons x xs ih =>
    exact (pyInsertDesc_perm key x (pySortDesc key xs)).trans (ih.cons x)

theorem pySortDesc_eq_nil_iff {α β : Type} [LinearOrder β] (key : α → β) (l : List α) :
    pySortDesc key l = [] ↔ l = [] := by
  constructor
  · intro h
    have := pySortDesc_perm key l
    rw [h] at this
    exact this.symm.eq_nil
  · intro h
    subst h
    rfl

theorem sublist_pyInsertDesc {α β : Type} [LinearOrder β] (key : α → β) (x : α)
    (l : List α) : l.Sublist (pyInsertDesc key x l) := by
  induction l with
  | nil => simp [pyInsertDesc]
  | cons y ys ih =>
    unfold pyInsertDesc
    by_cases h : key y ≤ key x
    · simp only [h, if_true]
      exact (List.sublist_cons_self x (y :: ys))
    · simp only [h, if_false]
      exact ih.cons₂ y

theorem pair_sublist_pyInsertDesc {α β : Type} [LinearOrder β] (key : α → β)
    (x y : α) (l : List α) (hxy : key y ≤ key x) (hy : y ∈ l) :
    [x, y].Sublist (pyInsertDesc key x l) := by
  induction l with
  | nil => cases hy
  | cons w ws ih =>
    unfold pyInsertDesc
    by_cases h : key w ≤ key x
    · simp only [h, if_true]
      exact (List.singleton_sublist.mpr hy).cons₂ x
    · simp only [h, if_false]
      rcases List.mem_cons.mp hy with rfl | hy'
      · exact absurd hxy h
      · exact (ih hy').cons w

theorem pair_sublist_pySortDesc {α β : Type} [LinearOrder β] (key : α → β)
    (x y : α) (l : List α) (hxy : key y ≤ key x) (h : [x, y].Sublist l) :
    [x, y].Sublist (pySortDesc key l) := by
  induction l with
  | nil => cases h
  | cons a as ih =>
    cases h with
    | cons _ h' =>
      exact (ih h').trans (sublist_pyInsertDesc key a (pySortDesc key as))
    | cons₂ _ h' =>
      show [x, y].Sublist (pyInsertDesc key x (pySortDesc key as))
      exact pair_sublist_pyInsertDesc key x y (pySortDesc key as) hxy
        ((pySortDesc_perm key as).mem_iff.mpr (List.singleton_sublist.mp h'))

theorem head_pySortDesc_firstMax {α β : Type} [LinearOrder β] (key : α → β)
    (l : List α) (x : α) (rest : List α) (h : pySortDesc key l = x :: rest) :
    ∃ l1 l2, l = l1 ++ x :: l2 ∧ (∀ y ∈ l, key y ≤ key x) ∧ ∀ y ∈ l1, key y < key x := by
  induction l generalizing x rest with
  | nil => cases h
  | cons a as ih =>
    rcases hs : pySortDesc key as with _ | ⟨b, bs⟩
    · have has : as = [] := (pySortDesc_eq_nil_iff key as).mp hs
      subst has
      simp only [pySortDesc, hs, pyInsertDesc] at h
      cases h
      exact ⟨[], [], rfl, by simp, by simp⟩
    · simp only [pySortDesc, hs, pyInsertDesc] at h
      rcases ih b bs hs with ⟨t1, t2, hdec, hmax, hpre⟩
      by_cases hba : key b ≤ key a
      · simp only [hba, if_true] at h
        injection h with h1 h2
        subst h1
        refine ⟨[], as, rfl, ?_, by simp⟩
        intro y hy
        rcases List.mem_cons.mp hy with rfl | hy'
        · exact le_refl _
        · exact le_trans (hmax y hy') hba
      · simp only [hba, if_false] at h
        injection h with h1 h2
        subst h1
        have hab : key a < key b := lt_of_not_le hba
        refine ⟨a :: t1, t2, by rw [hdec]; simp, ?_, ?_⟩
        · intro y hy
          rcases List.mem_cons.mp hy with rfl | hy'
          · exact le_of_lt hab
          · exact hmax y hy'
        · intro y hy
          rcases List.mem_cons.mp hy with rfl | hy'
          · exact hab
          · exact hpre y hy'

/-! Success of the cross-splice loop body on well-formed data. -/

theorem contrib_ok (hypsF : List (List Int)) (awsF : List (List (List Int)))
    (scoresF : List (List Int)) (hypsB : List (List Int))
    (awsB : List (List (List Int))) (scoresB : List (List Int))
    (n_f n_b i_f i_b : Nat)
    (hnfA : n_f < awsF.length) (hnfH : n_f < hypsF.length) (hnfS : n_f < scoresF.length)
    (hnbA : n_b < awsB.length) (hnbH : n_b < hypsB.length) (hnbS : n_b < scoresB.length)
    (hwfF : WFEntry (hypsF.getD n_f []) (awsF.getD n_f []) (scoresF.getD n_f []))
    (hwfB : WFEntry (hypsB.getD n_b []) (awsB.getD n_b []) (scoresB.getD n_b []))
    (hif : i_f < (awsF.getD n_f []).length - 1)
    (hib : i_b < (awsB.getD n_b []).length - 1) :
    contrib hypsF awsF scoresF hypsB awsB scoresB n_f n_b i_f i_b =
      .ok (spliceCandAt hypsF awsF scoresF hypsB awsB scoresB n_f n_b i_f i_b) := by
  obtain ⟨hlenHF, hlenSF, hrowsF⟩ := hwfF
  obtain ⟨hlenHB, hlenSB, hrowsB⟩ := hwfB
  set aF : List (List Int) := awsF.getD n_f [] with haF
  set aB : List (List Int) := awsB.getD n_b [] with haB
  set hF : List Int := hypsF.getD n_f [] with hhF
  set hB : List Int := hypsB.getD n_b [] with hhB
  set sF : List Int := scoresF.getD n_f [] with hsF
  set sB : List Int := scoresB.getD n_b [] with hsB
  have hb1 : i_b + 1 < aB.length := by omega
  have hb0 : 0 < aB.length := by omega
  have hbp : predWrap aB.length i_b < aB.length := by unfold predWrap; split <;> omega
  have hf1 : i_f < aF.length := by omega
  have hfH : i_f < hF.length := by omega
  have hbH : i_b < hB.length := by omega
  have hfS : i_f < sF.length := by omega
  have hfS0 : 0 < sF.length := by omega
  have hbS : i_b < sB.length := by omega
  have hbS1 : i_b + 1 < sB.length := by omega
  have hm1 : aB.getD (i_b + 1) [] ≠ [] := by
    apply hrowsB
    rw [List.getD_eq_getElem aB [] hb1]
    exact List.getElem_mem hb1
  have hm2 : aF.getD i_f [] ≠ [] := by
    apply hrowsF
    rw [List.getD_eq_getElem aF [] hf1]
    exact List.getElem_mem hf1
  have hm3 : aB.getD (predWrap aB.length i_b) [] ≠ [] := by
    apply hrowsB
    rw [List.getD_eq_getElem aB [] hbp]
    exact List.getElem_mem hbp
  have e1 : pyGetE awsB (n_b : Int) = .ok aB := pyGetE_nat_ok awsB n_b [] hnbA
  have e2 : pyGetE aB ((i_b : Int) + 1) = .ok (aB.getD (i_b + 1) []) :=
    pyGetE_cast_succ aB i_b [] hb1
  have e3 : argmaxE (aB.getD (i_b + 1) []) = .ok (argmaxD (aB.getD (i_b + 1) [])) :=
    argmaxE_ok _ hm1
  have e4 : pyGetE awsF (n_f : Int) = .ok aF := pyGetE_nat_ok awsF n_f [] hnfA
  have e5 : pyGetE aF (i_f : Int) = .ok (aF.getD i_f []) := pyGetE_nat_ok aF i_f [] hf1
  have e6 : argmaxE (aF.getD i_f []) = .ok (argmaxD (aF.getD i_f [])) := argmaxE_ok _ hm2
  have e7 : pyGetE aB ((i_b : Int) - 1) = .ok (aB.getD (predWrap aB.length i_b) []) :=
    pyGetE_cast_pred aB i_b [] hb0 (by omega)
  have e8 : argmaxE (aB.getD (predWrap aB.length i_b) []) =
      .ok (argmaxD (aB.getD (predWrap aB.length i_b) [])) := argmaxE_ok _ hm3
  have e9 : pyGetE hypsF (n_f : Int) = .ok hF := pyGetE_nat_ok hypsF n_f [] hnfH
  have e10 : pyGetE hF (i_f : Int) = .ok (hF.getD i_f 0) := pyGetE_nat_ok hF i_f 0 hfH
  have e11 : pyGetE hypsB (n_b : Int) = .ok hB := pyGetE_nat_ok hypsB n_b [] hnbH
  have e12 : pyGetE hB (i_b : Int) = .ok (hB.getD i_b 0) := pyGetE_nat_ok hB i_b 0 hbH
  have e13 : pyGetE scoresF (n_f : Int) = .ok sF := pyGetE_nat_ok scoresF n_f [] hnfS
  have e14 : pyGetE sF (i_f : Int) = .ok (sF.getD i_f 0) := pyGetE_nat_ok sF i_f 0 hfS
  have e15 : pyGetE sF ((i_f : Int) - 1) = .ok (sF.getD (predWrap sF.length i_f) 0) :=
    pyGetE_cast_pred sF i_f 0 hfS0 (by omega)
  have e16 : pyGetE scoresB (n_b : Int) = .ok sB := pyGetE_nat_ok scoresB n_b [] hnbS
  have e17 : pyGetE sB (i_b : Int) = .ok (sB.getD i_b 0) := pyGetE_nat_ok sB i_b 0 hbS
  have e18 : pyGetE sB ((i_b : Int) + 1) = .ok (sB.getD (i_b + 1) 0) :=
    pyGetE_cast_succ sB i_b 0 hbS1
  have f1 : pyGetD awsF (n_f : Int) [] = aF := pyGetD_nat awsF n_f [] [] hnfA
  have f2 : pyGetD awsB (n_b : Int) [] = aB := pyGetD_nat awsB n_b [] [] hnbA
  have f3 : pyGetD hypsF (n_f : Int) [] = hF := pyGetD_nat hypsF n_f [] [] hnfH
  have f4 : pyGetD hypsB (n_b : Int) [] = hB := pyGetD_nat hypsB n_b [] [] hnbH
  have f5 : pyGetD scoresF (n_f : Int) [] = sF := pyGetD_nat scoresF n_f [] [] hnfS
  have f6 : pyGetD scoresB (n_b : Int) [] = sB := pyGetD_nat scoresB n_b [] [] hnbS
  have f7 : pyGetD aB ((i_b : Int) + 1) [] = aB.getD (i_b + 1) [] :=
    pyGetD_cast_succ aB i_b [] [] hb1
  have f8 : pyGetD aF (i_f : Int) [] = aF.getD i_f [] := pyGetD_nat aF i_f [] [] hf1
  have f9 : pyGetD aB ((i_b : Int) - 1) [] = aB.getD (predWrap aB.length i_b) [] :=
    pyGetD_cast_pred aB i_b [] [] hb0 (by omega)
  have f10 : pyGetD hF (i_f : Int) 0 = hF.getD i_f 0 := pyGetD_nat hF i_f 0 0 hfH
  have f11 : pyGetD hB (i_b : Int) 0 = hB.getD i_b 0 := pyGetD_nat hB i_b 0 0 hbH
  have f12 : pyGetD sF (i_f : Int) 0 = sF.getD i_f 0 := pyGetD_nat sF i_f 0 0 hfS
  have f13 : pyGetD sF ((i_f : Int) - 1) 0 = sF.getD (predWrap sF.length i_f) 0 :=
    pyGetD_cast_pred sF i_f 0 0 hfS0 (by omega)
  have f14 : pyGetD sB (i_b : Int) 0 = sB.getD i_b 0 := pyGetD_nat sB i_b 0 0 hbS
  have f15 : pyGetD sB ((i_b : Int) + 1) 0 = sB.getD (i_b + 1) 0 :=
    pyGetD_cast_succ sB i_b 0 0 hbS1
  unfold contrib spliceCandAt tNextSel fwdPrevScoreTerm
  simp only [e1, e2, e3, e4, e5, e6, e7, e8, e9, e10, e11, e12, e13, e14, e15, e16,
    e17, e18, f1, f2, f3, f4, f5, f6, f7, f8, f9, f10, f11, f12, f13, f14, f15, okBind]
  split_ifs with h1 h2 h3 h4 <;> first | rfl | tauto

theorem spliceSearch_ok (hypsF : List (List Int)) (awsF : List (List (List Int)))
    (scoresF : List (List Int)) (hypsB : List (List Int))
    (awsB : List (List (List Int))) (scoresB : List (List Int)) (nbest : Nat)
    (hwF : WFDir hypsF awsF scoresF nbest) (hwB : WFDir hypsB awsB scoresB nbest) :
    spliceSearch hypsF awsF scoresF hypsB awsB scoresB nbest =
      .ok (spliceSpec hypsF awsF scoresF hypsB awsB scoresB nbest) := by
  obtain ⟨hFh, hFa, hFs, hFe⟩ := hwF
  obtain ⟨hBh, hBa, hBs, hBe⟩ := hwB
  unfold spliceSearch spliceSpec
  apply flatMapME_ok_of
  intro n_f hnf
  have hnf' : n_f < nbest := List.mem_range.mp hnf
  rw [pyGetE_nat_ok awsF n_f [] (by omega), okBind,
    pyGetD_nat awsF n_f [] [] (by omega)]
  apply flatMapME_ok_of
  intro n_b hnb
  have hnb' : n_b < nbest := List.mem_range.mp hnb
  rw [pyGetE_nat_ok awsB n_b [] (by omega), okBind,
    pyGetD_nat awsB n_b [] [] (by omega)]
  apply flatMapME_ok_of
  intro i_f hif
  apply flatMapME_ok_of
  intro i_b hib
  exact contrib_ok hypsF awsF scoresF hypsB awsB scoresB n_f n_b i_f i_b
    (by omega) (by omega) (by omega) (by omega) (by omega) (by omega)
    (hFe n_f hnf') (hBe n_b hnb')
    (List.mem_range.mp hif) (List.mem_range.mp hib)

theorem pyGetE_negOne {α : Type} (l : List α) (d : α) (h : 0 < l.length) :
    pyGetE l (-1) = .ok (l.getD (l.length - 1) d) := by
  have hc : (-1 : Int) = -((1 : Nat) : Int) := by norm_num
  rw [hc]
  exact pyGetE_neg_ok l 1 d (by omega) (by omega)

theorem pyGetE_negTwo {α : Type} (l : List α) (d : α) (h : 2 ≤ l.length) :
    pyGetE l (-2) = .ok (l.getD (l.length - 2) d) := by
  have hc : (-2 : Int) = -((2 : Nat) : Int) := by norm_num
  rw [hc]
  exact pyGetE_neg_ok l 2 d (by omega) (by omega)

theorem pyGetE_zero {α : Type} (l : List α) (d : α) (h : 0 < l.length) :
    pyGetE l 0 = .ok (l.getD 0 d) := by
  have hc : (0 : Int) = ((0 : Nat) : Int) := by norm_num
  rw [hc]
  exact pyGetE_nat_ok l 0 d (by omega)

theorem pyGetE_one {α : Type} (l : List α) (d : α) (h : 1 < l.length) :
    pyGetE l 1 = .ok (l.getD 1 d) := by
  have hc : (1 : Int) = ((1 : Nat) : Int) := by norm_num
  rw [hc]
  exact pyGetE_nat_ok l 1 d (by omega)

/-! Success of the seeding step on well-covered data. -/

theorem seedFwd_ok (hyp scores : List Int) (hlen : scores.length = hyp.length) :
    seedFwd hyp scores = .ok (seedFwdP hyp scores) := by
  unfold seedFwd seedFwdP
  by_cases h2 : 1 < hyp.length
  · simp only [if_pos h2]
    rw [pyGetE_negOne hyp 0 (by omega)]
    simp only [okBind]
    by_cases hl : hyp.getD (hyp.length - 1) 0 = eosId
    · simp only [if_pos hl]
      rw [pyGetE_negTwo scores 0 (by omega)]
      rfl
    · simp only [if_neg hl]
      rw [pyGetE_negOne scores 0 (by omega)]
      rfl
  · simp only [if_neg h2]
    rfl

theorem seedBwd_ok (hyp scores : List Int) (hlen : scores.length = hyp.length) :
    seedBwd hyp scores = .ok (seedBwdP hyp scores) := by
  unfold seedBwd seedBwdP
  by_cases h2 : 1 < hyp.length
  · simp only [if_pos h2]
    rw [pyGetE_zero hyp 0 (by omega)]
    simp only [okBind]
    by_cases hl : hyp.getD 0 0 = eosId
    · simp only [if_pos hl]
      rw [pyGetE_one scores 0 (by omega)]
      rfl
    · simp only [if_neg hl]
      rw [pyGetE_zero scores 0 (by omega)]
      rfl
  · simp only [if_neg h2]
    rfl

theorem seedCands_ok (hypsF : List (List Int)) (scoresF : List (List Int))
    (hypsB : List (List Int)) (scoresB : List (List Int)) (nbest : Nat)
    (awsF : List (List (List Int))) (awsB : List (List (List Int)))
    (hwF : WFDir hypsF awsF scoresF nbest) (hwB : WFDir hypsB awsB scoresB nbest) :
    seedCands hypsF scoresF hypsB scoresB nbest =
      .ok (seedSpec hypsF scoresF hypsB scoresB nbest) := by
  obtain ⟨hFh, hFa, hFs, hFe⟩ := hwF
  obtain ⟨hBh, hBa, hBs, hBe⟩ := hwB
  unfold seedCands seedSpec
  apply flatMapME_ok_of
  intro n hn
  have hn' : n < nbest := List.mem_range.mp hn
  obtain ⟨hf1, hf2, _⟩ := hFe n hn'
  obtain ⟨hb1, hb2, _⟩ := hBe n hn'
  rw [pyGetE_nat_ok hypsF n [] (by omega), okBind,
    pyGetE_nat_ok scoresF n [] (by omega), okBind,
    seedFwd_ok _ _ (by omega), okBind,
    pyGetE_nat_ok hypsB n [] (by omega), okBind,
    pyGetE_nat_ok scoresB n [] (by omega), okBind,
    seedBwd_ok _ _ (by omega), okBind]
  rfl

theorem flatMapP_eq_nil_of {α β : Type} (f : α → List β) (l : List α)
    (h : ∀ x ∈ l, f x = []) : flatMapP f l = [] := by
  induction l with
  | nil => rfl
  | cons x xs ih =>
    simp only [flatMapP, h x (by simp), List.nil_append]
    exact ih (fun y hy => h y (by simp [hy]))

/-! Characterisation of the per-item fusion on well-formed data. -/

theorem fuseItem_eq (hypsF : List (List Int)) (awsF : List (List (List Int)))
    (scoresF : List (List Int)) (hypsB : List (List Int))
    (awsB : List (List (List Int))) (scoresB : List (List Int)) (nbest : Nat)
    (hwF : WFDir hypsF awsF scoresF nbest) (hwB : WFDir hypsB awsB scoresB nbest) :
    fuseItem hypsF awsF scoresF hypsB awsB scoresB nbest =
      match pySortDesc Cand.score (seedSpec hypsF scoresF hypsB scoresB nbest ++
          spliceSpec hypsF awsF scoresF hypsB awsB scoresB nbest) with
      | [] => .error .indexError
      | c :: _ => .ok c.hyp := by
  unfold fuseItem
  rw [seedCands_ok hypsF scoresF hypsB scoresB nbest awsF awsB hwF hwB, okBind,
    spliceSearch_ok hypsF awsF scoresF hypsB awsB scoresB nbest hwF hwB, okBind]

theorem fuseItem_ok_or_idx (hypsF : List (List Int)) (awsF : List (List (List Int)))
    (scoresF : List (List Int)) (hypsB : List (List Int))
    (awsB : List (List (List Int))) (scoresB : List (List Int)) (nbest : Nat)
    (hwF : WFDir hypsF awsF scoresF nbest) (hwB : WFDir hypsB awsB scoresB nbest) :
    (∃ y, fuseItem hypsF awsF scoresF hypsB awsB scoresB nbest = .ok y) ∨
      fuseItem hypsF awsF scoresF hypsB awsB scoresB nbest = .error .indexError := by
  rw [fuseItem_eq hypsF awsF scoresF hypsB awsB scoresB nbest hwF hwB]
  rcases pySortDesc Cand.score (seedSpec hypsF scoresF hypsB scoresB nbest ++
      spliceSpec hypsF awsF scoresF hypsB awsB scoresB nbest) with _ | ⟨c, rest⟩
  · right; rfl
  · left; exact ⟨c.hyp, rfl⟩

theorem fuseItem_degenerate (hypsF : List (List Int)) (awsF : List (List (List Int)))
    (scoresF : List (List Int)) (hypsB : List (List Int))
    (awsB : List (List (List Int))) (scoresB : List (List Int)) (nbest : Nat)
    (hwF : WFDir hypsF awsF scoresF nbest) (hwB : WFDir hypsB awsB scoresB nbest)
    (hdeg : ∀ n < nbest, (hypsF.getD n []).length = 1 ∧ (hypsB.getD n []).length = 1) :
    fuseItem hypsF awsF scoresF hypsB awsB scoresB nbest = .error .indexError := by
  have hseed : seedSpec hypsF scoresF hypsB scoresB nbest = [] := by
    apply flatMapP_eq_nil_of
    intro n hn
    have hn' : n < nbest := List.mem_range.mp hn
    have h1 : ¬ (1 < (hypsF.getD n []).length) := by
      have := (hdeg n hn').1
      omega
    have h2 : ¬ (1 < (hypsB.getD n []).length) := by
      have := (hdeg n hn').2
      omega
    have e1 : seedFwdP (hypsF.getD n []) (scoresF.getD n []) = [] := by
      unfold seedFwdP
      rw [if_neg h1]
    have e2 : seedBwdP (hypsB.getD n []) (scoresB.getD n []) = [] := by
      unfold seedBwdP
      rw [if_neg h2]
    rw [e1, e2]
    rfl
  have hsplice : spliceSpec hypsF awsF scoresF hypsB awsB scoresB nbest = [] := by
    apply flatMapP_eq_nil_of
    intro n_f hnf
    have hnf' : n_f < nbest := List.mem_range.mp hnf
    apply flatMapP_eq_nil_of
    intro n_b hnb
    have hnb' : n_b < nbest := List.mem_range.mp hnb
    obtain ⟨hFh, hFa, hFs, hFe⟩ := hwF
    have hlen : (pyGetD awsF (n_f : Int) []).length - 1 = 0 := by
      rw [pyGetD_nat awsF n_f [] [] (by omega)]
      have := (hFe n_f hnf').1
      have := (hdeg n_f hnf').1
      omega
    rw [hlen]
    rfl
  rw [fuseItem_eq hypsF awsF scoresF hypsB awsB scoresB nbest hwF hwB, hseed, hsplice]
  rfl

theorem fwdBwdAttention_error (hypsF : List (List (List Int)))
    (awsF : List (List (List (List Int)))) (scoresF : List (List (List Int)))
    (hypsB : List (List (List Int)))
    (awsB : List (List (List (List Int)))) (scoresB : List (List (List Int)))
    (hwf : WFBatch hypsF awsF scoresF hypsB awsB scoresB)
    (b : Nat) (hb : b < hypsF.length)
    (hdeg : ∀ n < (hypsF.getD 0 []).length,
      ((hypsF.getD b []).getD n []).length = 1 ∧ ((hypsB.getD b []).getD n []).length = 1) :
    fwdBwdAttention hypsF awsF scoresF hypsB awsB scoresB = .error .indexError := by
  obtain ⟨h0, haF, hsF, hhB, haB, hsB, hitems⟩ := hwf
  unfold fwdBwdAttention
  rw [pyGetE_zero hypsF [] h0]
  simp only [okBind]
  apply mapME_error_of
  · intro b' hb'
    have hb'' : b' < hypsF.length := List.mem_range.mp hb'
    obtain ⟨hwFb, hwBb⟩ := hitems b' hb''
    rw [pyGetE_nat_ok hypsF b' [] (by omega), okBind,
      pyGetE_nat_ok awsF b' [] (by omega), okBind,
      pyGetE_nat_ok scoresF b' [] (by omega), okBind,
      pyGetE_nat_ok hypsB b' [] (by omega), okBind,
      pyGetE_nat_ok awsB b' [] (by omega), okBind,
      pyGetE_nat_ok scoresB b' [] (by omega), okBind]
    exact fuseItem_ok_or_idx _ _ _ _ _ _ _ hwFb hwBb
  · refine ⟨b, List.mem_range.mpr hb, ?_⟩
    obtain ⟨hwFb, hwBb⟩ := hitems b hb
    rw [pyGetE_nat_ok hypsF b [] (by omega), okBind,
      pyGetE_nat_ok awsF b [] (by omega), okBind,
      pyGetE_nat_ok scoresF b [] (by omega), okBind,
      pyGetE_nat_ok hypsB b [] (by omega), okBind,
      pyGetE_nat_ok awsB b [] (by omega), okBind,
      pyGetE_nat_ok scoresB b [] (by omega), okBind]
    exact fuseItem_degenerate _ _ _ _ _ _ _ hwFb hwBb hdeg

/-! Selection: the first-seen maximal candidate wins the stable sort. -/

theorem fuseItem_stable_select (hypsF : List (List Int)) (awsF : List (List (List Int)))
    (scoresF : List (List Int)) (hypsB : List (List Int))
    (awsB : List (List (List Int))) (scoresB : List (List Int)) (nbest : Nat)
    (seeds splices : List Cand) (c : Cand)
    (hseeds : seedCands hypsF scoresF hypsB scoresB nbest = .ok seeds)
    (hsplices : spliceSearch hypsF awsF scoresF hypsB awsB scoresB nbest = .ok splices)
    (hc : c ∈ seeds)
    (hmax : ∀ d ∈ seeds ++ splices, d.score ≤ c.score) :
    ∃ c', c' ∈ seeds ∧ c'.score = c.score ∧
      fuseItem hypsF awsF scoresF hypsB awsB scoresB nbest = .ok c'.hyp := by
  have hcm : c ∈ seeds ++ splices := List.mem_append_left _ hc
  rcases hsort : pySortDesc Cand.score (seeds ++ splices) with _ | ⟨x, rest⟩
  · have : seeds ++ splices = [] := (pySortDesc_eq_nil_iff Cand.score _).mp hsort
    rw [this] at hcm
    cases hcm
  · obtain ⟨l1, l2, hdecomp, hmax', hpre⟩ :=
      head_pySortDesc_firstMax Cand.score _ x rest hsort
    have hxm : x ∈ seeds ++ splices := by
      rw [hdecomp]
      exact List.mem_append_right _ (by simp)
    have hxc : x.score = c.score := le_antisymm (hmax x hxm) (hmax' c hcm)
    have p1 : (l1 ++ [x]) <+: (seeds ++ splices) := ⟨l2, by rw [hdecomp]; simp⟩
    have p2 : seeds <+: (seeds ++ splices) := ⟨splices, rfl⟩
    have hxseeds : x ∈ seeds := by
      rcases le_or_lt (l1.length + 1) seeds.length with hle | hgt
      · have hp := List.prefix_of_prefix_length_le p1 p2 (by simpa using hle)
        exact hp.subset (by simp)
      · have hp := List.prefix_of_prefix_length_le p2 p1
          (by simp only [List.length_append, List.length_singleton]; omega)
        have hcx : c ∈ l1 ++ [x] := hp.subset hc
        rcases List.mem_append.mp hcx with hcl | hcxx
        · exact absurd (hpre c hcl) (by rw [hxc]; exact lt_irrefl _)
        · have hceq : c = x := by simpa using hcxx
          rw [← hceq]
          exact hc
    refine ⟨x, hxseeds, hxc, ?_⟩
    unfold fuseItem
    rw [hseeds, okBind, hsplices, okBind]
    simp only [hsort]

/-! Sortedness and stability of the encode permutation. -/

theorem pairwise_pyInsertDesc {α β : Type} [LinearOrder β] (key : α → β) (x : α)
    (l : List α) (h : l.Pairwise (fun a b => key b ≤ key a)) :
    (pyInsertDesc key x l).Pairwise (fun a b => key b ≤ key a) := by
  induction l with
  | nil => simp [pyInsertDesc]
  | cons y ys ih =>
    unfold pyInsertDesc
    rcases List.pairwise_cons.mp h with ⟨hy, hys⟩
    by_cases hxy : key y ≤ key x
    · simp only [hxy, if_true]
      refine List.pairwise_cons.mpr ⟨?_, h⟩
      intro z hz
      rcases List.mem_cons.mp hz with rfl | hz'
      · exact hxy
      · exact le_trans (hy z hz') hxy
    · simp only [hxy, if_false]
      refine List.pairwise_cons.mpr ⟨?_, ih hys⟩
      intro z hz
      have hz' : z ∈ x :: ys := (pyInsertDesc_perm key x ys).mem_iff.mp hz
      rcases List.mem_cons.mp hz' with rfl | hz''
      · exact le_of_lt (lt_of_not_le hxy)
      · exact hy z hz''

theorem pairwise_pySortDesc {α β : Type} [LinearOrder β] (key : α → β) (l : List α) :
    (pySortDesc key l).Pairwise (fun a b => key b ≤ key a) := by
  induction l with
  | nil => simp [pySortDesc]
  | cons x xs ih => exact pairwise_pyInsertDesc key x (pySortDesc key xs) ih

theorem pair_sublist_range (i j n : Nat) (hij : i < j) (hj : j < n) :
    [i, j].Sublist (List.range n) := by
  induction n with
  | zero => omega
  | succ m ih =>
    rw [List.range_succ]
    rcases lt_or_eq_of_le (Nat.lt_succ_iff.mp hj) with hjm | hjm
    · exact (ih hjm).trans (List.sublist_append_left _ _)
    · subst hjm

      have h1 : [i].Sublist (List.range j) :=
        List.singleton_sublist.mpr (List.mem_range.mpr hij)
      have h2 : [j].Sublist [j] := List.Sublist.refl _
      exact List.Sublist.append h1 h2

theorem applyPerm_invPerm (p : List Nat) (xs : List (List Int))
    (hp : p.Perm (List.range xs.length)) :
    applyPerm (invPerm p) (applyPerm p xs) = xs := by
  have hplen : p.length = xs.length := by simpa using hp.length_eq
  apply List.ext_getElem
  · simp [applyPerm, invPerm, hplen]
  · intro k hk1 hk2
    have hkp : k < p.length := by omega
    have hkmem : k ∈ p := hp.mem_iff.mpr (List.mem_range.mpr (by omega))
    have hidx : p.indexOf k < p.length := List.indexOf_lt_length.mpr hkmem
    simp only [applyPerm, invPerm, List.getElem_map, List.getElem_range]
    have hys : (p.map (fun i => xs.getD i [])).length = p.length := by simp
    rw [List.getD_eq_getElem _ [] (by omega : p.indexOf k < (p.map
      (fun i => xs.getD i [])).length)]
    rw [List.getElem_map]
    rw [List.getElem_indexOf hidx]
    exact List.getD_eq_getElem xs [] hk2

/-! Claim theorems. -/

/-- C1: in the cross-splice search, for every rank pair and every
forward step but the last and backward step but the last, a spliced
candidate is appended exactly when `t_prev <= t_curr <= t_next` and
the forward token at `i_f` equals the backward token at `i_b`, with
hypothesis forward tokens `[0..i_f]` ++ backward tokens `[i_b+1..end]`
and score `fwd[i_f-1] + bwd[i_b+1] + max(fwd[i_f]-fwd[i_f-1],
bwd[i_b]-bwd[i_b+1])`: the search equals the specification
comprehension `spliceSpec` built from `spliceCandAt`. -/
theorem splice_characterization (hypsF : List (List Int)) (awsF : List (List (List Int)))
    (scoresF : List (List Int)) (hypsB : List (List Int))
    (awsB : List (List (List Int))) (scoresB : List (List Int)) (nbest : Nat)
    (hwF : WFDir hypsF awsF scoresF nbest) (hwB : WFDir hypsB awsB scoresB nbest) :
    spliceSearch hypsF awsF scoresF hypsB awsB scoresB nbest =
      .ok (spliceSpec hypsF awsF scoresF hypsB awsB scoresB nbest) :=
  spliceSearch_ok hypsF awsF scoresF hypsB awsB scoresB nbest hwF hwB

theorem splice_characterization_witness :
    WFDir [[5, 2]] [[[9, 0], [0, 9]]] [[-3, -4]] 1 ∧
      WFDir [[2, 5, 7]] [[[0, 9], [9, 0], [9, 0]]] [[-5, -6, 0]] 1 ∧
      spliceSpec [[5, 2]] [[[9, 0], [0, 9]]] [[-3, -4]] [[2, 5, 7]]
          [[[0, 9], [9, 0], [9, 0]]] [[-5, -6, 0]] 1 = [⟨[5, 7], -3⟩] ∧
      spliceSearch [[5, 2]] [[[9, 0], [0, 9]]] [[-3, -4]] [[2, 5, 7]]
          [[[0, 9], [9, 0], [9, 0]]] [[-5, -6, 0]] 1 =
        .ok (spliceSpec [[5, 2]] [[[9, 0], [0, 9]]] [[-3, -4]] [[2, 5, 7]]
          [[[0, 9], [9, 0], [9, 0]]] [[-5, -6, 0]] 1) :=
  ⟨by decide, by decide, by decide,
    splice_characterization [[5, 2]] [[[9, 0], [0, 9]]] [[-3, -4]] [[2, 5, 7]]
      [[[0, 9], [9, 0], [9, 0]]] [[-5, -6, 0]] 1 (by decide) (by decide)⟩

/-- C2: step 1 of the fusion engine: a forward hypothesis of more
than one token ending in the end marker is trimmed of it and gets the
second-to-last cumulative score as baseline; one not ending in it is
kept whole with its last cumulative score; symmetrically backward
hypotheses trim a leading end marker and use the second (else first)
cumulative score; length-one hypotheses contribute no candidate. -/
theorem trim_baseline_correct (hyp scores : List Int) (hlen : scores.length = hyp.length) :
    (1 < hyp.length → hyp.getD (hyp.length - 1) 0 = eosId →
      seedFwd hyp scores = .ok [⟨hyp.dropLast, scores.getD (scores.length - 2) 0⟩]) ∧
    (1 < hyp.length → hyp.getD (hyp.length - 1) 0 ≠ eosId →
      seedFwd hyp scores = .ok [⟨hyp, scores.getD (scores.length - 1) 0⟩]) ∧
    (hyp.length = 1 → seedFwd hyp scores = .ok []) ∧
    (1 < hyp.length → hyp.getD 0 0 = eosId →
      seedBwd hyp scores = .ok [⟨hyp.drop 1, scores.getD 1 0⟩]) ∧
    (1 < hyp.length → hyp.getD 0 0 ≠ eosId →
      seedBwd hyp scores = .ok [⟨hyp, scores.getD 0 0⟩]) ∧
    (hyp.length = 1 → seedBwd hyp scores = .ok []) := by
  refine ⟨?_, ?_, ?_, ?_, ?_, ?_⟩
  · intro h2 hl
    rw [seedFwd_ok hyp scores hlen]
    unfold seedFwdP
    rw [if_pos h2, if_pos hl]
  · intro h2 hl
    rw [seedFwd_ok hyp scores hlen]
    unfold seedFwdP
    rw [if_pos h2, if_neg hl]
  · intro h1
    rw [seedFwd_ok hyp scores hlen]
    unfold seedFwdP
    rw [if_neg (by omega)]
  · intro h2 hl
    rw [seedBwd_ok hyp scores hlen]
    unfold seedBwdP
    rw [if_pos h2, if_pos hl]
  · intro h2 hl
    rw [seedBwd_ok hyp scores hlen]
    unfold seedBwdP
    rw [if_pos h2, if_neg hl]
  · intro h1
    rw [seedBwd_ok hyp scores hlen]
    unfold seedBwdP
    rw [if_neg (by omega)]

theorem trim_baseline_correct_witness :
    ([-1, -3, -4] : List Int).length = ([5, 6, 2] : List Int).length ∧
      seedFwd [5, 6, 2] [-1, -3, -4] = .ok [⟨[5, 6], -3⟩] ∧
      seedBwd [2, 6, 5] [-4, -3, -1] = .ok [⟨[6, 5], -3⟩] :=
  ⟨by decide,
    (trim_baseline_correct [5, 6, 2] [-1, -3, -4] (by decide)).1 (by decide) (by decide),
    ((trim_baseline_correct [2, 6, 5] [-4, -3, -1] (by decide)).2.2.2.1 (by decide) (by decide))⟩

/-- C3: the fusion engine selects the candidate with the maximum
score, and ties are resolved first-seen: since the seeded (trimmed
single-direction) candidates precede all spliced candidates in the
merged list and the sort is stable, whenever some seeded candidate
attains the maximal score the selected hypothesis is that of a seeded
candidate with that score. -/
theorem tie_break_seeded_wins (hypsF : List (List Int)) (awsF : List (List (List Int)))
    (scoresF : List (List Int)) (hypsB : List (List Int))
    (awsB : List (List (List Int))) (scoresB : List (List Int)) (nbest : Nat)
    (seeds splices : List Cand) (c : Cand)
    (hseeds : seedCands hypsF scoresF hypsB scoresB nbest = .ok seeds)
    (hsplices : spliceSearch hypsF awsF scoresF hypsB awsB scoresB nbest = .ok splices)
    (hc : c ∈ seeds)
    (hmax : ∀ d ∈ seeds ++ splices, d.score ≤ c.score) :
    ∃ c', c' ∈ seeds ∧ c'.score = c.score ∧
      fuseItem hypsF awsF scoresF hypsB awsB scoresB nbest = .ok c'.hyp :=
  fuseItem_stable_select hypsF awsF scoresF hypsB awsB scoresB nbest seeds splices c
    hseeds hsplices hc hmax

theorem tie_break_seeded_wins_witness :
    seedCands [[5, 2]] [[-3, -4]] [[2, 5, 7]] [[-5, -6, 0]] 1 =
        .ok [⟨[5], -3⟩, ⟨[5, 7], -6⟩] ∧
      spliceSearch [[5, 2]] [[[9, 0], [0, 9]]] [[-3, -4]] [[2, 5, 7]]
          [[[0, 9], [9, 0], [9, 0]]] [[-5, -6, 0]] 1 = .ok [⟨[5, 7], -3⟩] ∧
      fuseItem [[5, 2]] [[[9, 0], [0, 9]]] [[-3, -4]] [[2, 5, 7]]
          [[[0, 9], [9, 0], [9, 0]]] [[-5, -6, 0]] 1 = .ok [5] ∧
      (∃ c', c' ∈ [(⟨[5], -3⟩ : Cand), ⟨[5, 7], -6⟩] ∧ c'.score = (-3 : Int) ∧
        fuseItem [[5, 2]] [[[9, 0], [0, 9]]] [[-3, -4]] [[2, 5, 7]]
          [[[0, 9], [9, 0], [9, 0]]] [[-5, -6, 0]] 1 = .ok c'.hyp) :=
  ⟨by decide, by decide, by decide,
    tie_break_seeded_wins [[5, 2]] [[[9, 0], [0, 9]]] [[-3, -4]] [[2, 5, 7]]
      [[[0, 9], [9, 0], [9, 0]]] [[-5, -6, 0]] 1
      [⟨[5], -3⟩, ⟨[5, 7], -6⟩] [⟨[5, 7], -3⟩] ⟨[5], -3⟩
      (by decide) (by decide) (by decide) (by decide)⟩

/-- C4 counterexample: on a batch whose single item has end-marker-only
hypotheses in both directions, the fusion call fails with the plain
`IndexError` from `merged[0]` on an empty list; no `FusionError` is
raised (the source defines no such class). -/
theorem fusion_empty_counterexample :
    fwdBwdAttention [[[2]]] [[[[9]]]] [[[0]]] [[[2]]] [[[[9]]]] [[[0]]] =
        .error .indexError ∧
      raisedFusionError
        (fwdBwdAttention [[[2]]] [[[[9]]]] [[[0]]] [[[2]]] [[[[9]]]] [[[0]]]) = false ∧
      fwdBwdAttention [[[2]]] [[[[9]]]] [[[0]]] [[[2]]] [[[[9]]]] [[[0]]] ≠
        .error (.fusionError "no viable candidate") :=
  ⟨by decide, by decide, by decide⟩

/-- C4 amended: if for some batch item every forward and every
backward hypothesis has length one, the candidate list stays empty and
the fusion call fails with a raised `IndexError` (rather than silently
emitting an empty sequence). -/
theorem fusion_empty_raises_index_error (hypsF : List (List (List Int)))
    (awsF : List (List (List (List Int)))) (scoresF : List (List (List Int)))
    (hypsB : List (List (List Int)))
    (awsB : List (List (List (List Int)))) (scoresB : List (List (List Int)))
    (hwf : WFBatch hypsF awsF scoresF hypsB awsB scoresB)
    (b : Nat) (hb : b < hypsF.length)
    (hdeg : ∀ n < (hypsF.getD 0 []).length,
      ((hypsF.getD b []).getD n []).length = 1 ∧ ((hypsB.getD b []).getD n []).length = 1) :
    fwdBwdAttention hypsF awsF scoresF hypsB awsB scoresB = .error .indexError :=
  fwdBwdAttention_error hypsF awsF scoresF hypsB awsB scoresB hwf b hb hdeg

theorem fusion_empty_raises_index_error_witness :
    WFBatch [[[2]]] [[[[9]]]] [[[0]]] [[[2]]] [[[[9]]]] [[[0]]] ∧
      (0 : Nat) < 1 ∧
      fwdBwdAttention [[[2]]] [[[[9]]]] [[[0]]] [[[2]]] [[[[9]]]] [[[0]]] =
        .error .indexError :=
  ⟨by decide, by decide,
    fusion_empty_raises_index_error [[[2]]] [[[[9]]]] [[[0]]] [[[2]]] [[[[9]]]] [[[0]]]
      (by decide) 0 (by decide) (by decide)⟩

/-- C7: `encode` sorts the batch indices by descending raw item
length; the resulting key sequence is non-increasing, ties keep their
original relative order (stable sort), and the permutation index is a
permutation of `0..B-1`. -/
theorem encode_sort_stable_perm (xs : List (List Int)) (i j : Nat) (hij : i < j)
    (hj : j < xs.length) (heq : (xs.getD i []).length = (xs.getD j []).length) :
    (encodePerm xs).Perm (List.range xs.length) ∧
      (encodePerm xs).Pairwise
        (fun a b => (xs.getD b []).length ≤ (xs.getD a []).length) ∧
      [i, j].Sublist (encodePerm xs) := by
  refine ⟨pySortDesc_perm _ _, pairwise_pySortDesc _ _, ?_⟩
  exact pair_sublist_pySortDesc (fun k => (xs.getD k []).length) i j
    (List.range xs.length) (le_of_eq heq.symm) (pair_sublist_range i j xs.length hij hj)

theorem encode_sort_stable_perm_witness :
    (0 : Nat) < 2 ∧ (2 : Nat) < 3 ∧
      (([[1], [2, 3], [4]] : List (List Int)).getD 0 []).length =
        (([[1], [2, 3], [4]] : List (List Int)).getD 2 []).length ∧
      encodePerm [[1], [2, 3], [4]] = [1, 0, 2] ∧
      ((encodePerm [[1], [2, 3], [4]]).Perm (List.range 3) ∧
        (encodePerm [[1], [2, 3], [4]]).Pairwise
          (fun a b => (([[1], [2, 3], [4]] : List (List Int)).getD b []).length ≤
            (([[1], [2, 3], [4]] : List (List Int)).getD a []).length) ∧
        [0, 2].Sublist (encodePerm [[1], [2, 3], [4]])) :=
  ⟨by decide, by decide, by decide, by decide,
    encode_sort_stable_perm [[1], [2, 3], [4]] 0 2 (by decide) (by decide) (by decide)⟩

/-- C5 counterexample: the dispatcher tests `self.ctc_weight` -- the
main task's CTC weight -- regardless of the requested task. Here the
requested task `ys_sub1` has CTC weight 1 and CTC is explicitly
requested, yet with main CTC weight 0 the dispatcher takes the greedy
path: the result carries alignments and is not the `decode_ctc`
output. -/
theorem ctc_dispatch_counterexample :
    decode ⟨0, 1, 0, 1, 0, fun _ => none⟩
        ⟨fun _ _ _ _ => [[99]], fun _ _ _ _ => ([[7]], [[[1]]]),
          fun _ _ _ _ _ _ => ⟨[], [], []⟩⟩
        [[0]] ⟨1, 1, 0, false⟩ 1 false true .sub1 =
      .ok (.three [[7]] (some [[[1]]]) [0]) ∧
    retAwsIsNone (decode ⟨0, 1, 0, 1, 0, fun _ => none⟩
        ⟨fun _ _ _ _ => [[99]], fun _ _ _ _ => ([[7]], [[[1]]]),
          fun _ _ _ _ _ _ => ⟨[], [], []⟩⟩
        [[0]] ⟨1, 1, 0, false⟩ 1 false true .sub1) = false ∧
    retHyps (decode ⟨0, 1, 0, 1, 0, fun _ => none⟩
        ⟨fun _ _ _ _ => [[99]], fun _ _ _ _ => ([[7]], [[[1]]]),
          fun _ _ _ _ _ _ => ⟨[], [], []⟩⟩
        [[0]] ⟨1, 1, 0, false⟩ 1 false true .sub1) ≠ [[99]] :=
  ⟨by decide, by decide, by decide⟩

/-- C5 amended: if the MAIN task's CTC weight equals 1, or CTC is
explicitly requested and the main CTC weight is positive, the
dispatcher invokes only `decode_ctc` (on the selected
direction-and-task decoder) and returns its hypotheses with no
alignments; the result does not depend on the greedy, beam-search or
fusion capabilities. -/
theorem ctc_dispatch_main_weight (m : Model) (ops ops' : DecOps) (xs : List (List Int))
    (p : DecodeParams) (nbest : Nat) (ex ctc : Bool) (task : Task)
    (hc : m.ctc_weight = 1 ∨ (0 < m.ctc_weight ∧ ctc = true))
    (hops : ops'.decode_ctc = ops.decode_ctc) :
    decode m ops xs p nbest ex ctc task =
      (setRnnlm m p (dirTask m task) >>= fun lm =>
        .ok (.three
          (ops.decode_ctc (dirTask m task) (applyPerm (encodePerm xs) xs)
            p.beam_width lm)
          none (encodePerm xs))) ∧
    decode m ops' xs p nbest ex ctc task = decode m ops xs p nbest ex ctc task := by
  constructor
  · simp only [decode]
    rw [if_pos hc]
  · simp only [decode]
    rw [if_pos hc, if_pos hc, hops]

theorem ctc_dispatch_main_weight_witness :
    ((1 : Rat) = 1 ∨ (0 < (1 : Rat) ∧ false = true)) ∧
      decode ⟨1, 0, 0, 1, 0, fun _ => none⟩
          ⟨fun _ _ _ _ => [[42]], fun _ _ _ _ => ([], []),
            fun _ _ _ _ _ _ => ⟨[], [], []⟩⟩
          [[3], [4, 5]] ⟨5, 1, 0, false⟩ 1 false false .main =
        (setRnnlm ⟨1, 0, 0, 1, 0, fun _ => none⟩ ⟨5, 1, 0, false⟩
            (dirTask ⟨1, 0, 0, 1, 0, fun _ => none⟩ .main) >>= fun lm =>
          .ok (.three
            (DecOps.decode_ctc ⟨fun _ _ _ _ => [[42]], fun _ _ _ _ => ([], []),
                fun _ _ _ _ _ _ => ⟨[], [], []⟩⟩
              (dirTask ⟨1, 0, 0, 1, 0, fun _ => none⟩ .main)
              (applyPerm (encodePerm [[3], [4, 5]]) [[3], [4, 5]]) 5 lm)
            none (encodePerm [[3], [4, 5]]))) :=
  ⟨by decide,
    (ctc_dispatch_main_weight ⟨1, 0, 0, 1, 0, fun _ => none⟩
      ⟨fun _ _ _ _ => [[42]], fun _ _ _ _ => ([], []), fun _ _ _ _ _ _ => ⟨[], [], []⟩⟩
      ⟨fun _ _ _ _ => [[42]], fun _ _ _ _ => ([], []), fun _ _ _ _ _ _ => ⟨[], [], []⟩⟩
      [[3], [4, 5]] ⟨5, 1, 0, false⟩ 1 false false .main (by decide) rfl).1⟩

/-- C6 counterexample: `decode` does NOT restore original batch
order. With an item-wise identity greedy decoder on the batch
`[[0], [0, 0]]`, the returned hypotheses are in length-sorted order
(`perm_idx = [1, 0]`), so `decode(batch)[0]` is the result for
`batch[1]`, not `batch[0]`. -/
theorem decode_order_counterexample :
    decode ⟨0, 0, 0, 1, 0, fun _ => none⟩
        ⟨fun _ _ _ _ => [], fun _ enc _ _ => (enc, enc.map (fun x => [x])),
          fun _ _ _ _ _ _ => ⟨[], [], []⟩⟩
        [[0], [0, 0]] ⟨1, 1, 0, false⟩ 1 false false .main =
      .ok (.three [[0, 0], [0]] (some [[[0, 0]], [[0]]]) [1, 0]) ∧
    retHyps (decode ⟨0, 0, 0, 1, 0, fun _ => none⟩
        ⟨fun _ _ _ _ => [], fun _ enc _ _ => (enc, enc.map (fun x => [x])),
          fun _ _ _ _ _ _ => ⟨[], [], []⟩⟩
        [[0], [0, 0]] ⟨1, 1, 0, false⟩ 1 false false .main) ≠ [[0], [0, 0]] :=
  ⟨by decide, by decide⟩

/-- C6 amended: the Permutation Index is a permutation of `0..B-1`
and applying it then its inverse restores the original item order; but
the hypotheses returned by `decode` are in length-sorted order:
`decode(batch)[k]` is the result for `batch[perm_idx[k]]` (the caller
must invert with the returned `perm_idx`). Stated on the greedy path
with an item-wise decoder oracle. -/
theorem decode_sorted_order_with_perm (m : Model) (ops : DecOps) (xs : List (List Int))
    (p : DecodeParams) (nbest : Nat) (ex ctc : Bool) (task : Task)
    (g : List Int → List Int) (ga : List Int → List (List Int))
    (hctc : ¬ (m.ctc_weight = 1 ∨ (0 < m.ctc_weight ∧ ctc = true)))
    (hbw : p.beam_width = 1) (hfba : p.fwd_bwd_attention = false)
    (hg : ∀ d encItems, ops.greedy d encItems p.lenRatioMax ex =
      (encItems.map g, encItems.map ga)) :
    decode m ops xs p nbest ex ctc task =
      .ok (.three ((encodePerm xs).map (fun i => g (xs.getD i [])))
        (some ((encodePerm xs).map (fun i => ga (xs.getD i []))))
        (encodePerm xs)) ∧
    (encodePerm xs).Perm (List.range xs.length) ∧
    applyPerm (invPerm (encodePerm xs)) (applyPerm (encodePerm xs) xs) = xs := by
  refine ⟨?_, pySortDesc_perm _ _, applyPerm_invPerm _ _ (pySortDesc_perm _ _)⟩
  simp only [decode]
  rw [if_neg hctc, if_pos ⟨hbw, hfba⟩, hg]
  simp [applyPerm, List.map_map, Function.comp]

theorem decode_sorted_order_with_perm_witness :
    ¬ (((⟨0, 0, 0, 1, 0, fun _ => none⟩ : Model).ctc_weight = 1) ∨
        (0 < (⟨0, 0, 0, 1, 0, fun _ => none⟩ : Model).ctc_weight ∧ false = true)) ∧
      decode ⟨0, 0, 0, 1, 0, fun _ => none⟩
          ⟨fun _ _ _ _ => [], fun _ enc _ _ => (enc, enc.map (fun x => [x])),
            fun _ _ _ _ _ _ => ⟨[], [], []⟩⟩
          [[8], [6, 7]] ⟨1, 1, 0, false⟩ 1 false false .main =
        .ok (.three ((encodePerm [[8], [6, 7]]).map
            (fun i => (([[8], [6, 7]] : List (List Int)).getD i [])))
          (some ((encodePerm [[8], [6, 7]]).map
            (fun i => [(([[8], [6, 7]] : List (List Int)).getD i [])])))
          (encodePerm [[8], [6, 7]])) ∧
      applyPerm (invPerm (encodePerm [[8], [6, 7]]))
          (applyPerm (encodePerm [[8], [6, 7]]) [[8], [6, 7]]) = [[8], [6, 7]] :=
  ⟨by decide,
    (decode_sorted_order_with_perm ⟨0, 0, 0, 1, 0, fun _ => none⟩
      ⟨fun _ _ _ _ => [], fun _ enc _ _ => (enc, enc.map (fun x => [x])),
        fun _ _ _ _ _ _ => ⟨[], [], []⟩⟩
      [[8], [6, 7]] ⟨1, 1, 0, false⟩ 1 false false .main
      (fun x => x) (fun x => [x]) (by decide) rfl rfl
      (fun d encItems => by simp)).1,
    (decode_sorted_order_with_perm ⟨0, 0, 0, 1, 0, fun _ => none⟩
      ⟨fun _ _ _ _ => [], fun _ enc _ _ => (enc, enc.map (fun x => [x])),
        fun _ _ _ _ _ _ => ⟨[], [], []⟩⟩
      [[8], [6, 7]] ⟨1, 1, 0, false⟩ 1 false false .main
      (fun x => x) (fun x => [x]) (by decide) rfl rfl
      (fun d encItems => by simp)).2.2⟩

/-- C8 counterexample: a positive language-model weight with no
registered language model fails with `AssertionError` (a bare Python
`assert hasattr(...)`), not with any `ConfigurationError` -- the
source defines no such class. -/
theorem rnnlm_assert_counterexample :
    decode ⟨1, 0, 0, 1, 0, fun _ => none⟩
        ⟨fun _ _ _ _ => [[42]], fun _ _ _ _ => ([], []),
          fun _ _ _ _ _ _ => ⟨[], [], []⟩⟩
        [[0]] ⟨5, 1, 1, false⟩ 1 false false .main = .error .assertionError ∧
    raisedConfigurationError (decode ⟨1, 0, 0, 1, 0, fun _ => none⟩
        ⟨fun _ _ _ _ => [[42]], fun _ _ _ _ => ([], []),
          fun _ _ _ _ _ _ => ⟨[], [], []⟩⟩
        [[0]] ⟨5, 1, 1, false⟩ 1 false false .main) = false :=
  ⟨by decide, by decide⟩

/-- C8 amended: in any decode call that performs language-model
rescoring (positive weight, in the CTC-only path or the
single-direction beam-search path), a missing language model for the
selected direction fails with `AssertionError` (a bare `assert`); when
one is registered, that direction's language model is the one passed
to the decoder capability. -/
theorem rnnlm_assertion_error (m : Model) (ops : DecOps) (xs : List (List Int))
    (p : DecodeParams) (nbest : Nat) (ex ctc : Bool) (task : Task)
    (hw : 0 < p.rnnlm_weight) :
    ((m.ctc_weight = 1 ∨ (0 < m.ctc_weight ∧ ctc = true)) →
      (m.rnnlm (dirTask m task) = none →
        decode m ops xs p nbest ex ctc task = .error .assertionError) ∧
      (∀ lm, m.rnnlm (dirTask m task) = some lm →
        decode m ops xs p nbest ex ctc task = .ok (.three
          (ops.decode_ctc (dirTask m task) (applyPerm (encodePerm xs) xs)
            p.beam_width (some lm))
          none (encodePerm xs)))) ∧
    (¬ (m.ctc_weight = 1 ∨ (0 < m.ctc_weight ∧ ctc = true)) →
      p.fwd_bwd_attention = false → p.beam_width ≠ 1 →
      (m.rnnlm (dirTask m task) = none →
        decode m ops xs p nbest ex ctc task = .error .assertionError) ∧
      (∀ lm, m.rnnlm (dirTask m task) = some lm →
        decode m ops xs p nbest ex ctc task =
          (if nbest = 1 then do
            let best ← mapME (fun (h : List (List Int)) => pyGetE h 0)
              (ops.beam_search (dirTask m task) (applyPerm (encodePerm xs) xs)
                p (some lm) nbest ex).hyps
            let aws1 ← mapME (fun (a : List (List (List Int))) => pyGetE a 0)
              (ops.beam_search (dirTask m task) (applyPerm (encodePerm xs) xs)
                p (some lm) nbest ex).aws
            .ok (.three best (some aws1) (encodePerm xs))
          else
            .ok (.four
              (ops.beam_search (dirTask m task) (applyPerm (encodePerm xs) xs)
                p (some lm) nbest ex).hyps
              (ops.beam_search (dirTask m task) (applyPerm (encodePerm xs) xs)
                p (some lm) nbest ex).aws
              (ops.beam_search (dirTask m task) (applyPerm (encodePerm xs) xs)
                p (some lm) nbest ex).scores
              (encodePerm xs))))) := by
  constructor
  · intro hc
    constructor
    · intro hnone
      have hsr : setRnnlm m p (dirTask m task) = .error .assertionError := by
        unfold setRnnlm
        rw [if_pos hw, hnone]
      simp only [decode]
      rw [if_pos hc, hsr, errBind]
    · intro lm hlm
      have hsr : setRnnlm m p (dirTask m task) = .ok (some lm) := by
        unfold setRnnlm
        rw [if_pos hw, hlm]
      simp only [decode]
      rw [if_pos hc, hsr, okBind]
  · intro hc hfba hbw
    have hg : ¬ (p.beam_width = 1 ∧ p.fwd_bwd_attention = false) := by
      intro hcontra
      exact hbw hcontra.1
    have hf : ¬ (p.fwd_bwd_attention = true) := by simp [hfba]
    constructor
    · intro hnone
      have hsr : setRnnlm m p (dirTask m task) = .error .assertionError := by
        unfold setRnnlm
        rw [if_pos hw, hnone]
      simp only [decode]
      rw [if_neg hc, if_neg hg, if_neg hf, hsr, errBind]
    · intro lm hlm
      have hsr : setRnnlm m p (dirTask m task) = .ok (some lm) := by
        unfold setRnnlm
        rw [if_pos hw, hlm]
      simp only [decode]
      rw [if_neg hc, if_neg hg, if_neg hf, hsr, okBind]

theorem rnnlm_assertion_error_witness :
    (0 : Rat) < 1 ∧
      decode ⟨1, 0, 0, 1, 0, fun _ => some 5⟩
          ⟨fun _ _ _ lm => [[42], lm.toList.map Int.ofNat], fun _ _ _ _ => ([], []),
            fun _ _ _ _ _ _ => ⟨[], [], []⟩⟩
          [[0]] ⟨5, 1, 1, false⟩ 1 false false .main =
        .ok (.three
          (DecOps.decode_ctc
            ⟨fun _ _ _ lm => [[42], lm.toList.map Int.ofNat], fun _ _ _ _ => ([], []),
              fun _ _ _ _ _ _ => ⟨[], [], []⟩⟩
            (dirTask ⟨1, 0, 0, 1, 0, fun _ => some 5⟩ .main)
            (applyPerm (encodePerm [[0]]) [[0]]) 5 (some 5))
          none (encodePerm [[0]])) :=
  ⟨by decide,
    ((rnnlm_assertion_error ⟨1, 0, 0, 1, 0, fun _ => some 5⟩
      ⟨fun _ _ _ lm => [[42], lm.toList.map Int.ofNat], fun _ _ _ _ => ([], []),
        fun _ _ _ _ _ _ => ⟨[], [], []⟩⟩
      [[0]] ⟨5, 1, 1, false⟩ 1 false false .main (by decide)).1 (by decide)).2 5 rfl⟩

/-- C9: at the boundary iterations of the cross-splice search the
index arithmetic wraps around instead of failing: on well-formed
n-best data the search raises no out-of-range error, at `i_b = 0` the
`t_next` selector reads the arg-max of the LAST backward alignment row
(Python index `-1`), and at `i_f = 0` the prefix score term
`forward_score[i_f - 1]` is the last cumulative forward score. -/
theorem splice_boundary_wraparound (hypsF : List (List Int))
    (awsF : List (List (List Int))) (scoresF : List (List Int))
    (hypsB : List (List Int)) (awsB : List (List (List Int)))
    (scoresB : List (List Int)) (nbest : Nat)
    (hwF : WFDir hypsF awsF scoresF nbest) (hwB : WFDir hypsB awsB scoresB nbest) :
    (∃ L, spliceSearch hypsF awsF scoresF hypsB awsB scoresB nbest = .ok L) ∧
    (∀ aB : List (List Int), aB ≠ [] →
      tNextSel aB 0 = argmaxD (aB.getD (aB.length - 1) [])) ∧
    (∀ sF : List Int, sF ≠ [] →
      fwdPrevScoreTerm sF 0 = sF.getD (sF.length - 1) 0) := by
  refine ⟨⟨_, spliceSearch_ok hypsF awsF scoresF hypsB awsB scoresB nbest hwF hwB⟩, ?_, ?_⟩
  · intro aB hne
    unfold tNextSel
    rw [pyGetD_cast_pred aB 0 [] [] (List.length_pos.mpr hne) (by omega)]
    simp [predWrap]
  · intro sF hne
    unfold fwdPrevScoreTerm
    rw [pyGetD_cast_pred sF 0 0 0 (List.length_pos.mpr hne) (by omega)]
    simp [predWrap]

theorem splice_boundary_wraparound_witness :
    WFDir [[5, 2]] [[[9, 0], [0, 9]]] [[-3, -4]] 1 ∧
      WFDir [[2, 5, 7]] [[[0, 9], [9, 0], [9, 0]]] [[-5, -6, 0]] 1 ∧
      ((∃ L, spliceSearch [[5, 2]] [[[9, 0], [0, 9]]] [[-3, -4]] [[2, 5, 7]]
          [[[0, 9], [9, 0], [9, 0]]] [[-5, -6, 0]] 1 = .ok L) ∧
        (∀ aB : List (List Int), aB ≠ [] →
          tNextSel aB 0 = argmaxD (aB.getD (aB.length - 1) [])) ∧
        (∀ sF : List Int, sF ≠ [] →
          fwdPrevScoreTerm sF 0 = sF.getD (sF.length - 1) 0)) :=
  ⟨by decide, by decide,
    splice_boundary_wraparound [[5, 2]] [[[9, 0], [0, 9]]] [[-3, -4]] [[2, 5, 7]]
      [[[0, 9], [9, 0], [9, 0]]] [[-5, -6, 0]] 1 (by decide) (by decide)⟩

/-- C10: the arity of the value returned by `decode` depends on
`nbest`: the single-direction beam-search path returns a 3-tuple with
per-item top-rank hypotheses and alignments when `nbest = 1` and a
4-tuple (n-best lists, alignments, score trajectories, permutation)
when `nbest >= 2`; the CTC-only and fusion paths always return a
3-tuple whose alignment component is `None`. -/
theorem decode_return_arity (m : Model) (ops : DecOps) (xs : List (List Int))
    (p : DecodeParams) (nbest : Nat) (ex ctc : Bool) (task : Task) (r : DecodeRet)
    (h : decode m ops xs p nbest ex ctc task = .ok r) :
    ((m.ctc_weight = 1 ∨ (0 < m.ctc_weight ∧ ctc = true)) →
      ∃ hyps perm, r = .three hyps none perm) ∧
    (¬ (m.ctc_weight = 1 ∨ (0 < m.ctc_weight ∧ ctc = true)) →
      p.fwd_bwd_attention = true → ∃ hyps perm, r = .three hyps none perm) ∧
    (¬ (m.ctc_weight = 1 ∨ (0 < m.ctc_weight ∧ ctc = true)) →
      p.fwd_bwd_attention = false → p.beam_width ≠ 1 → nbest = 1 →
      ∃ hyps aws perm, r = .three hyps (some aws) perm) ∧
    (¬ (m.ctc_weight = 1 ∨ (0 < m.ctc_weight ∧ ctc = true)) →
      p.fwd_bwd_attention = false → p.beam_width ≠ 1 → 2 ≤ nbest →
      ∃ nb aws sc perm, r = .four nb aws sc perm) := by
  refine ⟨?_, ?_, ?_, ?_⟩
  · intro hc
    simp only [decode] at h
    rw [if_pos hc] at h
    cases hsr : setRnnlm m p (dirTask m task) with
    | error e =>
      rw [hsr, errBind] at h
      cases h
    | ok lm =>
      rw [hsr, okBind] at h
      injection h with h'
      exact ⟨_, _, h'.symm⟩
  · intro hc hfba
    simp only [decode] at h
    have hg : ¬ (p.beam_width = 1 ∧ p.fwd_bwd_attention = false) := by
      simp [hfba]
    rw [if_neg hc, if_neg hg, if_pos hfba] at h
    cases hfb : fwdBwdAttention
        (ops.beam_search ⟨.fwd, .main⟩ (applyPerm (encodePerm xs) xs) p none
          p.beam_width false).hyps
        (ops.beam_search ⟨.fwd, .main⟩ (applyPerm (encodePerm xs) xs) p none
          p.beam_width false).aws
        (ops.beam_search ⟨.fwd, .main⟩ (applyPerm (encodePerm xs) xs) p none
          p.beam_width false).scores
        (ops.beam_search ⟨.bwd, .main⟩ (applyPerm (encodePerm xs) xs) p none
          p.beam_width false).hyps
        (ops.beam_search ⟨.bwd, .main⟩ (applyPerm (encodePerm xs) xs) p none
          p.beam_width false).aws
        (ops.beam_search ⟨.bwd, .main⟩ (applyPerm (encodePerm xs) xs) p none
          p.beam_width false).scores with
    | error e =>
      rw [hfb, errBind] at h
      cases h
    | ok best =>
      rw [hfb, okBind] at h
      injection h with h'
      exact ⟨_, _, h'.symm⟩
  · intro hc hfba hbw hn1
    simp only [decode] at h
    have hg : ¬ (p.beam_width = 1 ∧ p.fwd_bwd_attention = false) := by
      intro hcontra
      exact hbw hcontra.1
    have hf : ¬ (p.fwd_bwd_attention = true) := by simp [hfba]
    rw [if_neg hc, if_neg hg, if_neg hf] at h
    cases hsr : setRnnlm m p (dirTask m task) with
    | error e =>
      rw [hsr, errBind] at h
      cases h
    | ok lm =>
      rw [hsr, okBind, if_pos hn1] at h
      cases hm1 : mapME (fun (hh : List (List Int)) => pyGetE hh 0)
          (ops.beam_search (dirTask m task) (applyPerm (encodePerm xs) xs)
            p lm nbest ex).hyps with
      | error e =>
        rw [hm1, errBind] at h
        cases h
      | ok best =>
        rw [hm1, okBind] at h
        cases hm2 : mapME (fun (a : List (List (List Int))) => pyGetE a 0)
            (ops.beam_search (dirTask m task) (applyPerm (encodePerm xs) xs)
              p lm nbest ex).aws with
        | error e =>
          rw [hm2, errBind] at h
          cases h
        | ok aws1 =>
          rw [hm2, okBind] at h
          injection h with h'
          exact ⟨_, _, _, h'.symm⟩
  · intro hc hfba hbw hn2
    simp only [decode] at h
    have hg : ¬ (p.beam_width = 1 ∧ p.fwd_bwd_attention = false) := by
      intro hcontra
      exact hbw hcontra.1
    have hf : ¬ (p.fwd_bwd_attention = true) := by simp [hfba]
    rw [if_neg hc, if_neg hg, if_neg hf] at h
    cases hsr : setRnnlm m p (dirTask m task) with
    | error e =>
      rw [hsr, errBind] at h
      cases h
    | ok lm =>
      rw [hsr, okBind, if_neg (by omega : ¬ nbest = 1)] at h
      injection h with h'
      exact ⟨_, _, _, _, h'.symm⟩

theorem decode_return_arity_witness :
    decode ⟨1, 0, 0, 1, 0, fun _ => none⟩
        ⟨fun _ _ _ _ => [[9]], fun _ _ _ _ => ([], []),
          fun _ _ _ _ _ _ => ⟨[], [], []⟩⟩
        [[0]] ⟨5, 1, 0, false⟩ 1 false false .main =
      .ok (.three [[9]] none [0]) ∧
    ((1 : Rat) = 1 ∨ (0 < (1 : Rat) ∧ false = true)) ∧
    (∃ hyps perm, (DecodeRet.three [[9]] none [0]) = .three hyps none perm) :=
  ⟨by decide, by decide,
    (decode_return_arity ⟨1, 0, 0, 1, 0, fun _ => none⟩
      ⟨fun _ _ _ _ => [[9]], fun _ _ _ _ => ([], []), fun _ _ _ _ _ _ => ⟨[], [], []⟩⟩
      [[0]] ⟨5, 1, 0, false⟩ 1 false false .main (.three [[9]] none [0])
      (by decide)).1 (by decide)⟩

end NeuralSp
